import Mathlib

/-!
# dmapper: rule execution and nested path writes

A shallow embedding of `dmapper.go` (package `dmapper`).

Modelling decisions, all read off the source:

* A Go `map[string]any` is an association list `List (String × Any)`; reading a
  key returns the first binding, assigning a key replaces that binding in place
  or appends a new one.  Documents are finite trees of non-nil maps: two
  mappings never share storage and no mapping contains itself.
* `setNestedPath` mutates its argument and returns an `error`; the embedding
  returns the document as it is after the call together with the optional error.
* The expression engine (`cel.Program`, `ref.Val`) is not part of the
  repository.  A program is an arbitrary function from the activation to an
  error or a result value, and a result value is an arbitrary table of
  conversions together with its native representation.
* `strings.Split(path, ".")` is modelled on the characters of the path.
* The CEL environment of `compileMappers` is a parameter as well: its `Compile`
  and `Program` are arbitrary functions.
* A second embedding, in the namespace `Shared`, keeps every map as an object in
  a store and a `map[string]any` value as a reference to it, and evaluates every
  rule on the store as the earlier rules left it.  It is used where the identity
  of a map matters: whether `Execute` assigns inside the caller's input, on
  which input a later rule is evaluated, and what a write does to a document in
  which a map object is held at two places or inside itself.  The value
  embedding is used where the property does not depend on that.
-/

namespace Dmapper

/-! ## Data model -/

/-- A Go value of static type `any`, as far as `Execute` distinguishes them. -/
inductive Any where
  /-- The nil interface value. -/
  | nil : Any
  /-- A `[]string`. -/
  | strings (xs : List String) : Any
  /-- A `map[string]any`. -/
  | mapping (m : List (String × Any)) : Any
  /-- A `string`. -/
  | string (s : String) : Any
  /-- An `int64`. -/
  | int64 (n : Int) : Any
  /-- A `float64`, given by its bit pattern. -/
  | float64 (bits : Nat) : Any
  /-- A `bool`. -/
  | bool (b : Bool) : Any
  /-- A `[]any`. -/
  | anys (xs : List Any) : Any
  /-- Any other Go value (`uint64`, `[]byte`, ...), named by a printed form. -/
  | native (repr : String) : Any

/-- A document: the contents of a `map[string]any`. -/
abbrev Doc := List (String × Any)

/-- The type assertion `x.(map[string]any)`. -/
def Any.asMapping : Any → Option Doc
  | Any.mapping m => some m
  | _ => none

/-- Whether a value is a `map[string]any`. -/
def Any.isMapping (x : Any) : Bool := x.asMapping.isSome

/-- The comparison `val == nil` on a value of type `any`. -/
def Any.isNil : Any → Bool
  | Any.nil => true
  | _ => false

/-- Go errors that occur in the package. -/
inductive Err where
  /-- An error value returned by the expression engine. -/
  | engine (msg : String) : Err
  /-- The result of `fmt.Errorf` with a format without `%w`: only its text. -/
  | text (msg : String) : Err
  /-- The error `fmt.Errorf("failed to eval expression %q: %w", expr, cause)`. -/
  | evalFailed (expr : String) (cause : Err) : Err
deriving DecidableEq

/-- The map read `m[k]` with the comma-ok flag: `none` when the key is absent. -/
def mapGet : Doc → String → Option Any
  | [], _ => none
  | (k', v') :: rest, k => if k' = k then some v' else mapGet rest k

/-- The map assignment `m[k] = v`. -/
def mapSet : Doc → String → Any → Doc
  | [], k, v => [(k, v)]
  | (k', v') :: rest, k, v =>
    if k' = k then (k, v) :: rest else (k', v') :: mapSet rest k v

/-! ## `strings.Split(path, ".")` -/

/-- Splitting a character list at every occurrence of `sep`. -/
def splitChars (sep : Char) : List Char → List (List Char)
  | [] => [[]]
  | c :: cs =>
    if c = sep then [] :: splitChars sep cs
    else
      match splitChars sep cs with
      | [] => [[c]]
      | seg :: segs => (c :: seg) :: segs

/-- The call `strings.Split(path, ".")`. -/
def Split (path : String) : List String :=
  (splitChars '.' path.data).map String.mk

/-! ## `setNestedPath` -/

/-- The error `fmt.Errorf("path conflict at %s", part)`. -/
def pathConflict (part : String) : Err := Err.text ("path conflict at " ++ part)

/-- The loop of `setNestedPath` from the mapping `current` on, over the parts
that remain; the first component is `current` as the loop leaves it. -/
def setNestedParts : Doc → List String → Any → Doc × Option Err
  | current, [], _ => (current, none)
  | current, [part], value => (mapSet current part value, none)
  | current, part :: rest, value =>
    let current1 :=
      if (mapGet current part).isSome then current
      else mapSet current part (Any.mapping [])
    match (mapGet current1 part).bind Any.asMapping with
    | none => (current1, some (pathConflict part))
    | some next =>
      let r := setNestedParts next rest value
      (mapSet current1 part (Any.mapping r.1), r.2)

/-- The function `setNestedPath`: the document after the call and the error. -/
def setNestedPath (input : Doc) (path : String) (value : Any) : Doc × Option Err :=
  setNestedParts input (Split path) value

/-! ## Reading a document along a path -/

/-- Following segments from a value: every segment but the last must lead to
a mapping that holds the next one. -/
def Any.getPath : Any → List String → Option Any
  | x, [] => some x
  | x, part :: rest =>
    match x.asMapping with
    | none => none
    | some m =>
      match mapGet m part with
      | none => none
      | some y => y.getPath rest

/-- The chain of one-key mappings `{s1: {s2: ... {sn: v}}}` written as the
value below a key. -/
def chain : List String → Any → Any
  | [], v => v
  | part :: rest, v => Any.mapping [(part, chain rest v)]

/-- Whether, walking `parts` from the root of `doc`, segment `k` is not the
final one, every earlier segment led to a mapping, and segment `k` is present in
the mapping reached with a value that is not a `map[string]any`. -/
def conflictAt (doc : Doc) (parts : List String) (k : Nat) : Bool :=
  decide (k + 1 < parts.length) &&
    match ((Any.mapping doc).getPath (parts.take k)).bind Any.asMapping with
    | none => false
    | some m =>
      match (parts[k]?).bind (mapGet m) with
      | none => false
      | some x => !x.isMapping

/-! ## The expression engine, as far as `Execute` uses it -/

/-- The Go types that `Execute` passes to `ConvertToNative`. -/
inductive NativeType where
  /-- The type `[]string`. -/
  | stringSlice : NativeType
  /-- The type `map[string]any`. -/
  | stringAnyMap : NativeType
  /-- The type `string`. -/
  | string : NativeType
  /-- The type `int64`. -/
  | int64 : NativeType
  /-- The type `float64`. -/
  | float64 : NativeType
  /-- The type `bool`. -/
  | bool : NativeType
  /-- The type `[]any`. -/
  | anySlice : NativeType
deriving DecidableEq

/-- A result value of the engine (`ref.Val`): its conversions and its own
native representation. -/
structure RefVal where
  /-- The method `ConvertToNative(typeDesc)`. -/
  ConvertToNative : NativeType → Except Err Any
  /-- The method `Value()`. -/
  Value : Any

/-- The struct `MappingRule`. -/
structure MappingRule where
  /-- The field `Required`. -/
  Required : Bool
  /-- The field `SourceExpression`. -/
  SourceExpression : String
  /-- The field `TargetPropPath`. -/
  TargetPropPath : String

/-- The struct `compiledMappingRule`: a rule with its program, the program being
`Program.Eval` as a function of the activation. -/
structure compiledMappingRule extends MappingRule where
  /-- The call `Program.Eval(data)`, without the evaluation details. -/
  Program : Doc → Except Err RefVal

/-- The struct `Mapper`. -/
structure Mapper where
  /-- The field `CompiledMappingRules`. -/
  CompiledMappingRules : List compiledMappingRule

/-! ## `Mapper.Execute` -/

/-- The list of types tried by `Execute`, in source order. -/
def nativeTypes : List NativeType :=
  [NativeType.stringSlice, NativeType.stringAnyMap, NativeType.string, NativeType.int64,
   NativeType.float64, NativeType.bool, NativeType.anySlice]

/-- The conversion loop of `Execute`: `val` starts as nil and takes the result
of the first conversion without error, at which the loop breaks. -/
def convertLoop (out : RefVal) : List NativeType → Any
  | [] => Any.nil
  | t :: ts =>
    match out.ConvertToNative t with
    | Except.ok v => v
    | Except.error _ => convertLoop out ts

/-- The value that `Execute` writes for a result `out`: the conversion loop,
followed by `if val == nil { val = out.Value() }`. -/
def nativeValue (out : RefVal) : Any :=
  let val := convertLoop out nativeTypes
  if val.isNil then out.Value else val

/-- The `for ... range m.CompiledMappingRules` loop of `Execute`, from the
remaining rules and the current `resultClaims`; the result is the pair returned
by `Execute`. -/
def executeLoop (data : Doc) : List compiledMappingRule → Doc → Option Doc × Option Err
  | [], resultClaims => (some resultClaims, none)
  | rule :: rules, resultClaims =>
    match rule.Program data with
    | Except.error err =>
      if !rule.Required then executeLoop data rules resultClaims
      else (none, some (Err.evalFailed rule.SourceExpression err))
    | Except.ok out =>
      let w := setNestedPath resultClaims rule.TargetPropPath (nativeValue out)
      match w.2 with
      | some err =>
        if !rule.Required then executeLoop data rules w.1
        else (none, some err)
      | none => executeLoop data rules w.1

/-- The method `Mapper.Execute`: the returned document (nil as `none`) and the
returned error (nil as `none`). -/
def Mapper.Execute (m : Mapper) (input : Doc) : Option Doc × Option Err :=
  executeLoop [("self", Any.mapping input)] m.CompiledMappingRules []

/-! ## Execution traces -/

/-- The body of the loop of `Execute` for one rule on the current
`resultClaims`: the document as the body leaves it, and the error with which the
rule fails, if it does (the error that `Execute` returns for a required rule). -/
def ruleOutcome (data : Doc) (doc : Doc) (rule : compiledMappingRule) : Doc × Option Err :=
  match rule.Program data with
  | Except.error err => (doc, some (Err.evalFailed rule.SourceExpression err))
  | Except.ok out => setNestedPath doc rule.TargetPropPath (nativeValue out)

/-- The document after the loop body has run for each of `rules` in order,
starting from `start`. -/
def docAfter (data : Doc) (start : Doc) (rules : List compiledMappingRule) : Doc :=
  rules.foldl (fun doc rule => (ruleOutcome data doc rule).1) start

/-- The document on which the rule of index `i` runs in in-order execution. -/
def docBefore (data : Doc) (start : Doc) (rules : List compiledMappingRule) (i : Nat) : Doc :=
  docAfter data start (rules.take i)

/-- Whether the rule of index `i` fails in in-order execution: its evaluation
returns an error, or its write returns one. -/
def ruleFails (data : Doc) (start : Doc) (rules : List compiledMappingRule) (i : Nat) : Bool :=
  match rules[i]? with
  | none => false
  | some rule => (ruleOutcome data (docBefore data start rules i) rule).2.isSome

/-- One step of the fold that `Execute` is compared with: a failure of an
earlier required rule is kept, otherwise the rule runs and only the failure of a
required rule is recorded. -/
def foldStep (data : Doc) (acc : Doc × Option Err) (rule : compiledMappingRule) :
    Doc × Option Err :=
  match acc.2 with
  | some _ => acc
  | none =>
    if rule.Required then ruleOutcome data acc.1 rule
    else ((ruleOutcome data acc.1 rule).1, none)

/-- The pair returned for the final state of the fold: the error alone, or the
document alone. -/
def foldResult (acc : Doc × Option Err) : Option Doc × Option Err :=
  match acc.2 with
  | some e => (none, some e)
  | none => (some acc.1, none)

/-- The write that a rule asks for: its target path and the value of its
result, when its evaluation succeeds. -/
def ruleWrite (data : Doc) (rule : compiledMappingRule) : Option (String × Any) :=
  match rule.Program data with
  | Except.error _ => none
  | Except.ok out => some (rule.TargetPropPath, nativeValue out)

/-- The writes, in declaration order, of exactly the rules whose evaluation
succeeded and whose write succeeded in in-order execution. -/
def successfulWrites (data : Doc) (start : Doc) (rules : List compiledMappingRule) :
    List (String × Any) :=
  (List.range rules.length).filterMap (fun i =>
    if ruleFails data start rules i then none else (rules[i]?).bind (ruleWrite data))

/-- Applying `setNestedPath` for a list of writes in order; `none` as soon as
one of them returns an error. -/
def applyWrites : Doc → List (String × Any) → Option Doc
  | doc, [] => some doc
  | doc, w :: ws =>
    match (setNestedPath doc w.1 w.2).2 with
    | some _ => none
    | none => applyWrites (setNestedPath doc w.1 w.2).1 ws

/-! ## The conversion of a result, in the words of the specification -/

/-- The result of the first conversion, in the order of `nativeTypes`, that
returns no error. -/
def firstConversion (out : RefVal) : Option Any :=
  nativeTypes.findSome? (fun t =>
    match out.ConvertToNative t with
    | Except.ok v => some v
    | Except.error _ => none)

/-- The written value as the specification states it: the result of the first
conversion without error, and `out.Value()` when there is none. -/
def firstConversionOrValue (out : RefVal) : Any :=
  match firstConversion out with
  | some v => v
  | none => out.Value

/-- The written value with the nil test of the code: the result of the first
conversion without error unless that result is nil, and `out.Value()` when it
is nil or when there is none. -/
def firstNonNilConversionOrValue (out : RefVal) : Any :=
  match firstConversion out with
  | some v => if v.isNil then out.Value else v
  | none => out.Value

/-! ## Fixtures: the scenarios of the tests and small engines -/

/-- A result value of a toy engine for a native value: the conversion to the
type of the value itself succeeds, every other conversion fails. -/
def refValOf (v : Any) : RefVal where
  ConvertToNative := fun t =>
    match v, t with
    | Any.strings xs, NativeType.stringSlice => Except.ok (Any.strings xs)
    | Any.mapping m, NativeType.stringAnyMap => Except.ok (Any.mapping m)
    | Any.string s, NativeType.string => Except.ok (Any.string s)
    | Any.int64 n, NativeType.int64 => Except.ok (Any.int64 n)
    | Any.float64 b, NativeType.float64 => Except.ok (Any.float64 b)
    | Any.bool b, NativeType.bool => Except.ok (Any.bool b)
    | Any.anys xs, NativeType.anySlice => Except.ok (Any.anys xs)
    | _, _ => Except.error (Err.engine "type conversion error")
  Value := v

/-- A toy program for a chain of field selections such as `self.oidc.name`:
it fails when a field is missing. -/
def selectProgram (fields : List String) : Doc → Except Err RefVal := fun data =>
  match (Any.mapping data).getPath fields with
  | none => Except.error (Err.engine "no such key")
  | some v => Except.ok (refValOf v)

/-- A toy program for `self.oidc.groups[0]`. -/
def firstGroupProgram : Doc → Except Err RefVal := fun data =>
  match (Any.mapping data).getPath ["self", "oidc", "groups"] with
  | some (Any.strings (g :: _)) => Except.ok (refValOf (Any.string g))
  | _ => Except.error (Err.engine "index out of bounds")

/-- The input document of the tests. -/
def testInput : Doc :=
  [("oidc", Any.mapping [("groups", Any.strings ["app_group1", "app_group2", "other_group"])])]

/-- The rule `self.oidc.name` to `name` of the tests. -/
def nameRule (required : Bool) : compiledMappingRule where
  Required := required
  SourceExpression := "self.oidc.name"
  TargetPropPath := "name"
  Program := selectProgram ["self", "oidc", "name"]

/-- The rule `self.oidc.groups[0]` to `first_group` of the tests. -/
def firstGroupRule : compiledMappingRule where
  Required := true
  SourceExpression := "self.oidc.groups[0]"
  TargetPropPath := "first_group"
  Program := firstGroupProgram

/-- The mapper of the test "failing but optional rule". -/
def optionalMapper : Mapper := Mapper.mk [nameRule false, firstGroupRule]

/-- The mapper of the test "failing but required rule". -/
def requiredMapper : Mapper := Mapper.mk [nameRule true, firstGroupRule]

/-- A toy program for a literal: it returns the value on every input. -/
def constProgram (v : Any) : Doc → Except Err RefVal := fun _ => Except.ok (refValOf v)

/-- A rule that writes a literal at a path. -/
def constRule (required : Bool) (expr : String) (path : String) (v : Any) :
    compiledMappingRule where
  Required := required
  SourceExpression := expr
  TargetPropPath := path
  Program := constProgram v

/-- A result value all of whose conversions return the nil interface value
without error, while its native representation is a string. -/
def nilResult : RefVal where
  ConvertToNative := fun _ => Except.ok Any.nil
  Value := Any.string "fallback"

/-- A rule whose program returns `nilResult`. -/
def nilRule : compiledMappingRule where
  Required := true
  SourceExpression := "self.x"
  TargetPropPath := "out"
  Program := fun _ => Except.ok nilResult

/-! ## `NewMapper` and `compileMappers` -/

/-- The CEL environment (`cel.Env`) as `compileMappers` uses it, for an
arbitrary type `Ast` of checked expressions: `Compile` with the test
`issues.Err() != nil`, and `Program`. -/
structure Env (Ast : Type) where
  /-- The call `env.Compile(expr)`: the error `issues.Err()` or the checked
  expression. -/
  Compile : String → Except Err Ast
  /-- The call `env.Program(ast)`: an error or the program, as its `Eval`. -/
  Program : Ast → Except Err (Doc → Except Err RefVal)

/-- The `for ... range rules` loop of `compileMappers`, from the remaining
rules and the slice `cm` built so far. -/
def compileLoop {Ast : Type} (env : Env Ast) :
    List MappingRule → List compiledMappingRule → Except Err (List compiledMappingRule)
  | [], cm => Except.ok cm
  | rule :: rules, cm =>
    match env.Compile rule.SourceExpression with
    | Except.error err => Except.error err
    | Except.ok ast =>
      match env.Program ast with
      | Except.error err => Except.error err
      | Except.ok prog =>
        compileLoop env rules (cm ++ [{ toMappingRule := rule, Program := prog }])

/-- The function `compileMappers`, for the environment that `cel.NewEnv`
returned. -/
def compileMappers {Ast : Type} (env : Env Ast) (rules : List MappingRule) :
    Except Err (List compiledMappingRule) :=
  compileLoop env rules []

/-- The function `NewMapper`: the returned mapper (nil as `none`) and the
returned error (nil as `none`). -/
def NewMapper {Ast : Type} (env : Env Ast) (rules : List MappingRule) :
    Option Mapper × Option Err :=
  match compileMappers env rules with
  | Except.error err => (none, some err)
  | Except.ok cm => (some (Mapper.mk cm), none)

/-- The error with which a rule fails to compile or to become a program, if it
does. -/
def compileError {Ast : Type} (env : Env Ast) (rule : MappingRule) : Option Err :=
  match env.Compile rule.SourceExpression with
  | Except.error err => some err
  | Except.ok ast =>
    match env.Program ast with
    | Except.error err => some err
    | Except.ok _ => none

/-- A toy environment: an expression compiles when it starts with `self`, and
its program selects no field. -/
def toyEnv : Env String where
  Compile := fun expr =>
    if "self".data <+: expr.data then Except.ok expr
    else Except.error (Err.engine ("undeclared reference in " ++ expr))
  Program := fun _ => Except.ok (selectProgram ["self"])

/-! ## Errors: what they wrap and what their text is -/

/-- The function `errors.Unwrap` on the errors built in the package: only the
error made with `%w` has a cause. -/
def Err.Unwrap : Err → Option Err
  | Err.evalFailed _ cause => some cause
  | Err.text _ => none
  | Err.engine _ => none

/-- The rule `self.oidc.groups` to `a.b` of a required write below a string. -/
def groupsRule : compiledMappingRule where
  Required := true
  SourceExpression := "self.oidc.groups"
  TargetPropPath := "a.b"
  Program := selectProgram ["self", "oidc", "groups"]

/-- A mapper whose second rule is required and writes below the string that the
first rule wrote. -/
def conflictMapper : Mapper :=
  Mapper.mk [constRule false "'s'" "a" (Any.string "s"), groupsRule]

/-! ## Where the loop of `setNestedPath` returns -/

/-- The three `return` statements that `setNestedPath` can reach. -/
inductive Exit where
  /-- The `return nil` of the final segment, inside the loop. -/
  | atFinalSegment : Exit
  /-- The `return fmt.Errorf(...)` of a conflict, inside the loop. -/
  | atConflict : Exit
  /-- The `return nil` after the loop. -/
  | afterLoop : Exit
deriving DecidableEq

/-- The loop of `setNestedPath` once more, recording the `return` that is
reached and the number of iterations of the loop body that were started. -/
def setNestedExit : Doc → List String → Exit × Nat
  | _, [] => (Exit.afterLoop, 0)
  | _, [_] => (Exit.atFinalSegment, 1)
  | current, part :: rest =>
    let current1 :=
      if (mapGet current part).isSome then current
      else mapSet current part (Any.mapping [])
    match (mapGet current1 part).bind Any.asMapping with
    | none => (Exit.atConflict, 1)
    | some next => ((setNestedExit next rest).1, (setNestedExit next rest).2 + 1)

/-! ## Equality of documents as maps -/

/-- What a read shows of a value: of a mapping only that it is one, its keys
being read by longer paths; any other value itself. -/
def Any.shape : Any → Any
  | Any.mapping _ => Any.mapping []
  | x => x

/-- Two values read alike along every list of segments: the same absence, a
mapping in both, or the same value in both. -/
def sameValue (x y : Any) : Prop :=
  ∀ q : List String, (x.getPath q).map Any.shape = (y.getPath q).map Any.shape

/-- Two documents hold the same keys with the same values, in whatever order the
association lists keep them. -/
def sameDoc (d1 d2 : Doc) : Prop := sameValue (Any.mapping d1) (Any.mapping d2)

/-! ## Maps as shared objects

A second embedding of `setNestedPath` and `Execute`, in which a value of type
`map[string]any` is a reference to a map object in a store, as it is in Go: a
map object can be reached from several places, and an assignment through one of
them is seen from all.  It serves the questions whether `Execute` leaves the
caller's input alone, on which input a rule is evaluated, and what a write does
where a map object is held at two places or inside itself. -/

namespace Shared

/-- A Go value of static type `any`, a `map[string]any` being the address of
a map object. -/
inductive Val where
  /-- The nil interface value. -/
  | nil : Val
  /-- A `[]string`. -/
  | strings (xs : List String) : Val
  /-- A `map[string]any`: the address of the map object. -/
  | mapRef (addr : Nat) : Val
  /-- A `string`. -/
  | string (s : String) : Val
  /-- An `int64`. -/
  | int64 (n : Int) : Val
  /-- A `float64`, given by its bit pattern. -/
  | float64 (bits : Nat) : Val
  /-- A `bool`. -/
  | bool (b : Bool) : Val
  /-- Any other Go value, named by a printed form. -/
  | native (repr : String) : Val
deriving DecidableEq

/-- The comparison `val == nil`. -/
def Val.isNil : Val → Bool
  | Val.nil => true
  | _ => false

/-- The contents of a map object. -/
abbrev MapObj := List (String × Val)

/-- The store: the map objects allocated so far; the address of a map object is
its index. -/
abbrev Store := List MapObj

/-- The read `m[k]` in the contents of a map object. -/
def objGet : MapObj → String → Option Val
  | [], _ => none
  | (k', v') :: rest, k => if k' = k then some v' else objGet rest k

/-- The assignment `m[k] = v` in the contents of a map object. -/
def objSet : MapObj → String → Val → MapObj
  | [], k, v => [(k, v)]
  | (k', v') :: rest, k, v =>
    if k' = k then (k, v) :: rest else (k', v') :: objSet rest k v

/-- The read `a[k]` with the comma-ok flag, for the map object at address `a`. -/
def get (store : Store) (a : Nat) (k : String) : Option Val :=
  objGet (store.getD a []) k

/-- The assignment `a[k] = v` to the map object at address `a`. -/
def assign (store : Store) (a : Nat) (k : String) (v : Val) : Store :=
  store.set a (objSet (store.getD a []) k v)

/-- The loop of `setNestedPath` over the parts that remain, from the map object
`current`; a `make(map[string]any)` allocates the next address. -/
def setNestedParts : List String → Store → Nat → Val → Store × Option Err
  | [], store, _, _ => (store, none)
  | [part], store, current, value => (assign store current part value, none)
  | part :: rest, store, current, value =>
    let store1 :=
      if (get store current part).isSome then store
      else assign (store ++ [[]]) current part (Val.mapRef store.length)
    match get store1 current part with
    | some (Val.mapRef next) => setNestedParts rest store1 next value
    | _ => (store1, some (pathConflict part))

/-- The function `setNestedPath` on the map object at address `input`: the
store after the call and the error. -/
def setNestedPath (store : Store) (input : Nat) (path : String) (value : Val) :
    Store × Option Err :=
  setNestedParts (Split path) store input value

/-- A result value of the engine (`ref.Val`). -/
structure RefVal where
  /-- The method `ConvertToNative(typeDesc)`. -/
  ConvertToNative : NativeType → Except Err Val
  /-- The method `Value()`. -/
  Value : Val

/-- The struct `compiledMappingRule`; `Program.Eval(data)` reads the store from
the address of `data`. -/
structure compiledMappingRule extends MappingRule where
  /-- The call `Program.Eval(data)`. -/
  Program : Store → Nat → Except Err RefVal

/-- The struct `Mapper`. -/
structure Mapper where
  /-- The field `CompiledMappingRules`. -/
  CompiledMappingRules : List compiledMappingRule

/-- The conversion loop of `Execute`. -/
def convertLoop (out : RefVal) : List NativeType → Val
  | [] => Val.nil
  | t :: ts =>
    match out.ConvertToNative t with
    | Except.ok v => v
    | Except.error _ => convertLoop out ts

/-- The value that `Execute` writes for a result `out`. -/
def nativeValue (out : RefVal) : Val :=
  let val := convertLoop out nativeTypes
  if val.isNil then out.Value else val

/-- The loop of `Execute` over the remaining rules: the store it leaves, the
returned map (its address) and the returned error. -/
def executeLoop (data resultClaims : Nat) :
    List compiledMappingRule → Store → Store × Option Nat × Option Err
  | [], store => (store, some resultClaims, none)
  | rule :: rules, store =>
    match rule.Program store data with
    | Except.error err =>
      if !rule.Required then executeLoop data resultClaims rules store
      else (store, none, some (Err.evalFailed rule.SourceExpression err))
    | Except.ok out =>
      let w := setNestedPath store resultClaims rule.TargetPropPath (nativeValue out)
      match w.2 with
      | some err =>
        if !rule.Required then executeLoop data resultClaims rules w.1
        else (w.1, none, some err)
      | none => executeLoop data resultClaims rules w.1

/-- The method `Mapper.Execute` for the input map at address `input`:
`resultClaims` and `data` are two new map objects. -/
def Mapper.Execute (m : Mapper) (store : Store) (input : Nat) :
    Store × Option Nat × Option Err :=
  let resultClaims := store.length
  let store1 := store ++ [[]]
  let data := store1.length
  let store2 := store1 ++ [[("self", Val.mapRef input)]]
  executeLoop data resultClaims m.CompiledMappingRules store2

/-- Reading fields from the map object at an address; a field that holds a map
yields the reference to that very map object. -/
def select : List String → Store → Nat → Option Val
  | [], _, a => some (Val.mapRef a)
  | [f], store, a => get store a f
  | f :: fs, store, a =>
    match get store a f with
    | some (Val.mapRef b) => select fs store b
    | _ => none

/-- A result value for a native value, as the engine adapts a Go value: the
conversion to the type of the value itself returns the value, for a
`map[string]any` the map object that was given; any other conversion fails. -/
def refValOf (v : Val) : RefVal where
  ConvertToNative := fun t =>
    match v, t with
    | Val.strings xs, NativeType.stringSlice => Except.ok (Val.strings xs)
    | Val.mapRef a, NativeType.stringAnyMap => Except.ok (Val.mapRef a)
    | Val.string s, NativeType.string => Except.ok (Val.string s)
    | Val.int64 n, NativeType.int64 => Except.ok (Val.int64 n)
    | Val.float64 b, NativeType.float64 => Except.ok (Val.float64 b)
    | Val.bool b, NativeType.bool => Except.ok (Val.bool b)
    | _, _ => Except.error (Err.engine "type conversion error")
  Value := v

/-- A program for a chain of field selections such as `self.oidc`. -/
def selectProgram (fields : List String) : Store → Nat → Except Err RefVal :=
  fun store data =>
    match select fields store data with
    | none => Except.error (Err.engine "no such key")
    | some v => Except.ok (refValOf v)

/-- A program for a literal. -/
def constProgram (v : Val) : Store → Nat → Except Err RefVal :=
  fun _ _ => Except.ok (refValOf v)

/-- The caller's input `{oidc: {groups: [...]}}`: the map at address 0, whose
key `oidc` holds the map at address 1. -/
def inputStore : Store :=
  [[("oidc", Val.mapRef 1)],
   [("groups", Val.strings ["app_group1", "app_group2", "other_group"])]]

/-- The rules `self.oidc` to `oidc` and `'x'` to `oidc.extra`. -/
def aliasMapper : Mapper :=
  Mapper.mk
    [{ Required := false, SourceExpression := "self.oidc", TargetPropPath := "oidc",
       Program := selectProgram ["self", "oidc"] },
     { Required := false, SourceExpression := "'x'", TargetPropPath := "oidc.extra",
       Program := constProgram (Val.string "x") }]

end Shared

/-! ## Rule lists that make `Execute` share a map object -/

namespace Shared

/-- A rule whose program selects fields, such as `self.oidc`. -/
def selectRule (required : Bool) (expr : String) (fields : List String) (path : String) :
    compiledMappingRule where
  Required := required
  SourceExpression := expr
  TargetPropPath := path
  Program := selectProgram fields

/-- A rule whose program is a literal. -/
def constRule (required : Bool) (expr : String) (path : String) (v : Val) :
    compiledMappingRule where
  Required := required
  SourceExpression := expr
  TargetPropPath := path
  Program := constProgram v

/-- The store as `Execute` has it when the first rule is evaluated on
`inputStore`: `resultClaims` at address 2, `data` at address 3. -/
def startStore : Store := inputStore ++ [[], [("self", Val.mapRef 0)]]

/-- The optional rule `self.oidc.extra` to `y`. -/
def extraRule : compiledMappingRule :=
  selectRule false "self.oidc.extra" ["self", "oidc", "extra"] "y"

/-- The rules `self.oidc` to `oidc`, `'x'` to `oidc.extra`, and the optional
`self.oidc.extra` to `y`. -/
def changedInputMapper : Mapper :=
  Mapper.mk
    [selectRule false "self.oidc" ["self", "oidc"] "oidc",
     constRule false "'x'" "oidc.extra" (Val.string "x"),
     extraRule]

/-- The rules `self.oidc` to `a` and `self.oidc` to `a.self`: the second
write puts the map object of `oidc` inside itself. -/
def cycleRules : List compiledMappingRule :=
  [selectRule true "self.oidc" ["self", "oidc"] "a",
   selectRule true "self.oidc" ["self", "oidc"] "a.self"]

/-- The rules `self.oidc` to `a` and `self.oidc` to `b`: both keys hold the
map object of `oidc`. -/
def twiceRules : List compiledMappingRule :=
  [selectRule true "self.oidc" ["self", "oidc"] "a",
   selectRule true "self.oidc" ["self", "oidc"] "b"]

end Shared

/-! ## Lemmas on map reads and assignments -/

theorem mapGet_mapSet_same (m : Doc) (k : String) (v : Any) :
    mapGet (mapSet m k v) k = some v := by
  induction m with
  | nil => simp [mapSet, mapGet]
  | cons kv rest ih =>
    obtain ⟨k', v'⟩ := kv
    by_cases h : k' = k
    · simp [mapSet, mapGet, h]
    · simp [mapSet, mapGet, h, ih]

theorem mapGet_mapSet_ne (m : Doc) (k k2 : String) (v : Any) (hne : k ≠ k2) :
    mapGet (mapSet m k v) k2 = mapGet m k2 := by
  induction m with
  | nil => simp [mapSet, mapGet, hne]
  | cons kv rest ih =>
    obtain ⟨k', v'⟩ := kv
    by_cases h : k' = k
    · subst h
      simp [mapSet, mapGet, hne]
    · by_cases h2 : k' = k2
      · subst h2
        simp [mapSet, mapGet, h]
      · simp [mapSet, mapGet, h, h2, ih]

theorem mapSet_mapSet_same (m : Doc) (k : String) (v w : Any) :
    mapSet (mapSet m k v) k w = mapSet m k w := by
  induction m with
  | nil => simp [mapSet]
  | cons kv rest ih =>
    obtain ⟨k', v'⟩ := kv
    by_cases h : k' = k
    · simp [mapSet, h]
    · simp [mapSet, h, ih]

theorem mapSet_of_mapGet (m : Doc) (k : String) (v : Any) (h : mapGet m k = some v) :
    mapSet m k v = m := by
  induction m with
  | nil => simp [mapGet] at h
  | cons kv rest ih =>
    obtain ⟨k', v'⟩ := kv
    by_cases hk : k' = k
    · simp [mapGet, hk] at h
      simp [mapSet, hk, h]
    · simp [mapGet, hk] at h
      simp [mapSet, hk, ih h]

theorem mapSet_of_absent (m : Doc) (k : String) (v : Any) (h : mapGet m k = none) :
    mapSet m k v = m ++ [(k, v)] := by
  induction m with
  | nil => simp [mapSet]
  | cons kv rest ih =>
    obtain ⟨k', v'⟩ := kv
    by_cases hk : k' = k
    · simp [mapGet, hk] at h
    · simp [mapGet, hk] at h
      simp [mapSet, hk, ih h]

/-! ## Lemmas on splitting -/

theorem splitChars_ne_nil (sep : Char) (cs : List Char) : splitChars sep cs ≠ [] := by
  induction cs with
  | nil => simp [splitChars]
  | cons c cs ih =>
    unfold splitChars
    split
    · simp
    · split <;> simp

theorem Split_ne_nil (path : String) : Split path ≠ [] := by
  simp [Split, splitChars_ne_nil]

/-! ## Lemmas on the loop of `setNestedPath` -/

theorem setNestedParts_absent (current : Doc) (part p2 : String) (rest : List String) (value : Any)
    (h : mapGet current part = none) :
    setNestedParts current (part :: p2 :: rest) value =
      (mapSet current part (Any.mapping (setNestedParts [] (p2 :: rest) value).1),
       (setNestedParts [] (p2 :: rest) value).2) := by
  rw [setNestedParts.eq_3 _ _ _ _ (by simp)]
  simp [h, mapGet_mapSet_same, Any.asMapping, mapSet_mapSet_same]

theorem setNestedParts_mapping (current : Doc) (part p2 : String) (rest : List String)
    (value : Any) (next : Doc) (h : mapGet current part = some (Any.mapping next)) :
    setNestedParts current (part :: p2 :: rest) value =
      (mapSet current part (Any.mapping (setNestedParts next (p2 :: rest) value).1),
       (setNestedParts next (p2 :: rest) value).2) := by
  rw [setNestedParts.eq_3 _ _ _ _ (by simp)]
  simp [h, Any.asMapping]

theorem setNestedParts_conflict (current : Doc) (part p2 : String) (rest : List String)
    (value x : Any) (h : mapGet current part = some x) (hx : x.asMapping = none) :
    setNestedParts current (part :: p2 :: rest) value = (current, some (pathConflict part)) := by
  rw [setNestedParts.eq_3 _ _ _ _ (by simp)]
  simp [h, hx]

theorem setNestedParts_empty (part : String) (rest : List String) (value : Any) :
    setNestedParts [] (part :: rest) value = ([(part, chain rest value)], none) := by
  induction rest generalizing part with
  | nil => simp [setNestedParts, mapSet, chain]
  | cons p2 rest ih =>
    rw [setNestedParts_absent _ _ _ _ _ (by simp [mapGet]), ih]
    simp [mapSet, chain]

/-! ## Lemmas on reading along a path -/

theorem getPath_mapping_cons (m : Doc) (part : String) (rest : List String) :
    (Any.mapping m).getPath (part :: rest) =
      (mapGet m part).bind (fun y => y.getPath rest) := by
  rw [Any.getPath.eq_2]
  simp only [Any.asMapping]
  cases mapGet m part <;> rfl

theorem getPath_cons_of_not_mapping (x : Any) (part : String) (rest : List String)
    (hx : x.asMapping = none) : x.getPath (part :: rest) = none := by
  rw [Any.getPath.eq_2, hx]

theorem asMapping_eq_some {x : Any} {m : Doc} (h : x.asMapping = some m) : x = Any.mapping m := by
  cases x <;> simp [Any.asMapping] at h
  rw [h]

theorem conflictAt_zero (doc : Doc) (part p2 : String) (rest : List String) :
    conflictAt doc (part :: p2 :: rest) 0 =
      match mapGet doc part with
      | none => false
      | some x => !x.isMapping := by
  simp [conflictAt, Any.getPath, Any.asMapping]

theorem conflictAt_succ (doc : Doc) (part : String) (rest : List String) (k : Nat) :
    conflictAt doc (part :: rest) (k + 1) =
      match (mapGet doc part).bind Any.asMapping with
      | none => false
      | some next => conflictAt next rest k := by
  simp only [conflictAt, List.length_cons, List.take_succ_cons, getPath_mapping_cons,
    List.getElem?_cons_succ, Nat.add_lt_add_iff_right]
  cases hg : mapGet doc part with
  | none => simp
  | some y =>
    cases hy : y.asMapping with
    | none =>
      simp only [Option.some_bind, Option.bind_eq_bind, hy]
      cases htk : List.take k rest with
      | nil => simp [Any.getPath, hy]
      | cons a l => simp [getPath_cons_of_not_mapping _ _ _ hy]
    | some next =>
      have := asMapping_eq_some hy
      subst this
      simp only [Option.some_bind, Option.bind_eq_bind, hy]

/-! ## Lemmas on conflicts and on the result of `setNestedPath` -/

theorem isMapping_eq_false_iff (x : Any) : x.isMapping = false ↔ x.asMapping = none := by
  simp [Any.isMapping]

theorem conflictAt_lt {doc : Doc} {parts : List String} {k : Nat}
    (h : conflictAt doc parts k = true) : k + 1 < parts.length := by
  simp only [conflictAt, Bool.and_eq_true, decide_eq_true_eq] at h
  exact h.1

theorem conflictAt_unique (doc : Doc) (parts : List String) (j k : Nat)
    (hj : conflictAt doc parts j = true) (hk : conflictAt doc parts k = true) : j = k := by
  induction parts generalizing doc j k with
  | nil => exact absurd (conflictAt_lt hj) (by simp)
  | cons part rest ih =>
    cases rest with
    | nil => exact absurd (conflictAt_lt hj) (by simp)
    | cons p2 rest =>
      cases j with
      | zero =>
        cases k with
        | zero => rfl
        | succ k =>
          rw [conflictAt_zero] at hj
          rw [conflictAt_succ] at hk
          cases hg : mapGet doc part with
          | none => simp [hg] at hj
          | some x =>
            simp only [hg, Bool.not_eq_true', isMapping_eq_false_iff] at hj
            simp [hg, hj] at hk
      | succ j =>
        cases k with
        | zero =>
          rw [conflictAt_zero] at hk
          rw [conflictAt_succ] at hj
          cases hg : mapGet doc part with
          | none => simp [hg] at hk
          | some x =>
            simp only [hg, Bool.not_eq_true', isMapping_eq_false_iff] at hk
            simp [hg, hk] at hj
        | succ k =>
          rw [conflictAt_succ] at hj hk
          cases hb : (mapGet doc part).bind Any.asMapping with
          | none => simp [hb] at hj
          | some next =>
            simp only [hb] at hj hk
            rw [ih next j k hj hk]

theorem setNestedParts_error_iff (current : Doc) (parts : List String) (value : Any) (e : Err) :
    (setNestedParts current parts value).2 = some e ↔
      ∃ k seg, parts[k]? = some seg ∧ conflictAt current parts k = true ∧
        e = pathConflict seg := by
  induction parts generalizing current with
  | nil => simp [setNestedParts]
  | cons part rest ih =>
    cases rest with
    | nil =>
      simp only [setNestedParts]
      constructor
      · intro h
        cases h
      · rintro ⟨k, seg, _, hc, _⟩
        exact absurd (conflictAt_lt hc) (by simp)
    | cons p2 rest =>
      cases hg : mapGet current part with
      | none =>
        rw [setNestedParts_absent _ _ _ _ _ hg, setNestedParts_empty]
        constructor
        · intro h
          cases h
        · rintro ⟨k, seg, _, hc, _⟩
          cases k with
          | zero => simp [conflictAt_zero, hg] at hc
          | succ k => simp [conflictAt_succ, hg] at hc
      | some x =>
        cases hx : x.asMapping with
        | none =>
          rw [setNestedParts_conflict _ _ _ _ _ x hg hx]
          constructor
          · intro h
            refine ⟨0, part, by simp, ?_, ?_⟩
            · simp [conflictAt_zero, hg, isMapping_eq_false_iff, hx]
            · simpa using h.symm
          · rintro ⟨k, seg, hseg, hc, he⟩
            cases k with
            | zero =>
              simp only [List.getElem?_cons_zero, Option.some.injEq] at hseg
              simp [he, hseg]
            | succ k => simp [conflictAt_succ, hg, hx] at hc
        | some next =>
          have hxe := asMapping_eq_some hx
          subst hxe
          rw [setNestedParts_mapping _ _ _ _ _ next hg]
          simp only [ih next]
          constructor
          · rintro ⟨k, seg, hseg, hc, he⟩
            refine ⟨k + 1, seg, by simpa using hseg, ?_, he⟩
            rw [conflictAt_succ]
            simpa [hg, Any.asMapping] using hc
          · rintro ⟨k, seg, hseg, hc, he⟩
            cases k with
            | zero => simp [conflictAt_zero, hg, Any.isMapping, Any.asMapping] at hc
            | succ k =>
              refine ⟨k, seg, by simpa using hseg, ?_, he⟩
              rw [conflictAt_succ] at hc
              simpa [hg, Any.asMapping] using hc

theorem setNestedParts_atomic (current : Doc) (parts : List String) (value : Any) (e : Err)
    (h : (setNestedParts current parts value).2 = some e) :
    (setNestedParts current parts value).1 = current := by
  induction parts generalizing current with
  | nil => simp [setNestedParts]
  | cons part rest ih =>
    cases rest with
    | nil => simp [setNestedParts] at h
    | cons p2 rest =>
      cases hg : mapGet current part with
      | none =>
        rw [setNestedParts_absent _ _ _ _ _ hg, setNestedParts_empty] at h
        cases h
      | some x =>
        cases hx : x.asMapping with
        | none => rw [setNestedParts_conflict _ _ _ _ _ x hg hx]
        | some next =>
          have hxe := asMapping_eq_some hx
          subst hxe
          rw [setNestedParts_mapping _ _ _ _ _ next hg] at h ⊢
          simp only at h ⊢
          rw [ih next h]
          exact mapSet_of_mapGet _ _ _ hg

theorem setNestedParts_read (current : Doc) (parts : List String) (value : Any)
    (hne : parts ≠ []) (h : (setNestedParts current parts value).2 = none) :
    (Any.mapping (setNestedParts current parts value).1).getPath parts = some value := by
  induction parts generalizing current with
  | nil => exact absurd rfl hne
  | cons part rest ih =>
    cases rest with
    | nil =>
      simp only [setNestedParts]
      rw [getPath_mapping_cons, mapGet_mapSet_same]
      rfl
    | cons p2 rest =>
      cases hg : mapGet current part with
      | none =>
        rw [setNestedParts_absent _ _ _ _ _ hg] at h ⊢
        simp only at h ⊢
        rw [getPath_mapping_cons, mapGet_mapSet_same]
        exact ih [] (by simp) h
      | some x =>
        cases hx : x.asMapping with
        | none =>
          rw [setNestedParts_conflict _ _ _ _ _ x hg hx] at h
          cases h
        | some next =>
          have hxe := asMapping_eq_some hx
          subst hxe
          rw [setNestedParts_mapping _ _ _ _ _ next hg] at h ⊢
          simp only at h ⊢
          rw [getPath_mapping_cons, mapGet_mapSet_same]
          exact ih next (by simp) h

theorem getPath_append (x : Any) (p q : List String) :
    x.getPath (p ++ q) = (x.getPath p).bind (fun y => y.getPath q) := by
  induction p generalizing x with
  | nil => simp [Any.getPath]
  | cons part rest ih =>
    rw [List.cons_append, Any.getPath.eq_2, Any.getPath.eq_2]
    cases x.asMapping with
    | none => rfl
    | some m =>
      simp only
      cases mapGet m part with
      | none => rfl
      | some y => exact ih y

theorem getPath_through_mapping (x v : Any) (p q : List String) (hq : q ≠ [])
    (h : x.getPath (p ++ q) = some v) : ∃ m, x.getPath p = some (Any.mapping m) := by
  rw [getPath_append] at h
  cases hp : x.getPath p with
  | none => simp [hp] at h
  | some y =>
    cases q with
    | nil => exact absurd rfl hq
    | cons a l =>
      cases hy : y.asMapping with
      | none => simp [hp, getPath_cons_of_not_mapping _ _ _ hy] at h
      | some m => exact ⟨m, by rw [asMapping_eq_some hy]⟩

theorem setNestedParts_overwrite (current : Doc) (parts : List String) (v1 v2 : Any)
    (h : (setNestedParts current parts v1).2 = none) :
    setNestedParts (setNestedParts current parts v1).1 parts v2 =
      setNestedParts current parts v2 := by
  induction parts generalizing current with
  | nil => simp [setNestedParts]
  | cons part rest ih =>
    cases rest with
    | nil => simp [setNestedParts, mapSet_mapSet_same]
    | cons p2 rest =>
      cases hg : mapGet current part with
      | none =>
        rw [setNestedParts_absent _ _ _ _ _ hg] at h ⊢
        simp only at h ⊢
        rw [setNestedParts_mapping _ _ _ _ _ _ (mapGet_mapSet_same _ _ _), ih [] h,
          mapSet_mapSet_same, setNestedParts_absent _ _ _ _ _ hg]
      | some x =>
        cases hx : x.asMapping with
        | none =>
          rw [setNestedParts_conflict _ _ _ _ _ x hg hx] at h
          cases h
        | some next =>
          have hxe := asMapping_eq_some hx
          subst hxe
          rw [setNestedParts_mapping _ _ _ _ _ next hg] at h ⊢
          simp only at h ⊢
          rw [setNestedParts_mapping _ _ _ _ _ _ (mapGet_mapSet_same _ _ _), ih next h,
            mapSet_mapSet_same, setNestedParts_mapping _ _ _ _ _ next hg]

theorem setNestedParts_below_leaf (current : Doc) (p : List String) (a : String)
    (ext : List String) (v w : Any) (hp : p ≠ []) (hv : v.asMapping = none)
    (h : (setNestedParts current p v).2 = none) :
    setNestedParts (setNestedParts current p v).1 (p ++ a :: ext) w =
      ((setNestedParts current p v).1, some (pathConflict (p.getLast hp))) := by
  induction p generalizing current with
  | nil => exact absurd rfl hp
  | cons part rest ih =>
    cases rest with
    | nil =>
      simp only [setNestedParts, List.singleton_append, List.getLast_singleton]
      exact setNestedParts_conflict _ _ _ _ _ v (mapGet_mapSet_same _ _ _) hv
    | cons p2 rest =>
      have hlast : (part :: p2 :: rest).getLast hp = (p2 :: rest).getLast (by simp) := by
        simp [List.getLast_cons]
      rw [hlast]
      cases hg : mapGet current part with
      | none =>
        rw [setNestedParts_absent _ _ _ _ _ hg] at h ⊢
        simp only at h ⊢
        rw [List.cons_append, List.cons_append,
          setNestedParts_mapping _ _ _ _ _ _ (mapGet_mapSet_same _ _ _)]
        have := ih [] (by simp) h
        rw [List.cons_append] at this
        rw [this]
        simp [mapSet_mapSet_same]
      | some x =>
        cases hx : x.asMapping with
        | none =>
          rw [setNestedParts_conflict _ _ _ _ _ x hg hx] at h
          cases h
        | some next =>
          have hxe := asMapping_eq_some hx
          subst hxe
          rw [setNestedParts_mapping _ _ _ _ _ next hg] at h ⊢
          simp only at h ⊢
          rw [List.cons_append, List.cons_append,
            setNestedParts_mapping _ _ _ _ _ _ (mapGet_mapSet_same _ _ _)]
          have := ih next (by simp) h
          rw [List.cons_append] at this
          rw [this]
          simp [mapSet_mapSet_same]

theorem setNestedParts_error_indep (current : Doc) (parts : List String) (v1 v2 : Any) :
    (setNestedParts current parts v1).2 = (setNestedParts current parts v2).2 := by
  cases h1 : (setNestedParts current parts v1).2 with
  | none =>
    cases h2 : (setNestedParts current parts v2).2 with
    | none => rfl
    | some e =>
      rw [setNestedParts_error_iff] at h2
      rw [← setNestedParts_error_iff current parts v1, h1] at h2
      cases h2
  | some e =>
    rw [setNestedParts_error_iff] at h1
    rw [← setNestedParts_error_iff current parts v2] at h1
    exact h1.symm

theorem getPath_of_conflictAt (doc : Doc) (parts : List String) (k : Nat)
    (h : conflictAt doc parts k = true) : (Any.mapping doc).getPath parts = none := by
  induction parts generalizing doc k with
  | nil => exact absurd (conflictAt_lt h) (by simp)
  | cons part rest ih =>
    cases rest with
    | nil => exact absurd (conflictAt_lt h) (by simp)
    | cons p2 rest =>
      rw [getPath_mapping_cons]
      cases k with
      | zero =>
        rw [conflictAt_zero] at h
        cases hg : mapGet doc part with
        | none => rfl
        | some x =>
          simp only [hg, Bool.not_eq_true', isMapping_eq_false_iff] at h
          exact getPath_cons_of_not_mapping _ _ _ h
      | succ k =>
        rw [conflictAt_succ] at h
        cases hg : mapGet doc part with
        | none => rfl
        | some x =>
          cases hx : x.asMapping with
          | none => simp [hg, hx] at h
          | some next =>
            have hxe := asMapping_eq_some hx
            subst hxe
            simp only [hg, Option.some_bind, Any.asMapping] at h
            exact ih next k h

theorem mapGet_append_absent (m : Doc) (k k2 : String) (v : Any) (h : mapGet m k = none) :
    mapGet (m ++ [(k, v)]) k2 = if k2 = k then some v else mapGet m k2 := by
  rw [← mapSet_of_absent m k v h]
  by_cases hk : k2 = k
  · subst hk
    simp [mapGet_mapSet_same]
  · rw [mapGet_mapSet_ne _ _ _ _ (Ne.symm hk)]
    simp [hk]

/-! ## Lemmas on the loop of `Execute` -/

theorem executeLoop_cons (data : Doc) (rule : compiledMappingRule)
    (rules : List compiledMappingRule) (doc : Doc) :
    executeLoop data (rule :: rules) doc =
      if rule.Required = true ∧ (ruleOutcome data doc rule).2.isSome = true then
        (none, (ruleOutcome data doc rule).2)
      else executeLoop data rules (ruleOutcome data doc rule).1 := by
  rw [executeLoop, ruleOutcome]
  cases hp : rule.Program data with
  | error err =>
    cases hr : rule.Required <;> simp
  | ok out =>
    simp only
    cases hw : (setNestedPath doc rule.TargetPropPath (nativeValue out)).2 with
    | none => simp
    | some e => cases hr : rule.Required <;> simp

theorem ruleOutcome_atomic (data : Doc) (doc : Doc) (rule : compiledMappingRule)
    (h : (ruleOutcome data doc rule).2.isSome = true) : (ruleOutcome data doc rule).1 = doc := by
  unfold ruleOutcome at h ⊢
  cases hp : rule.Program data with
  | error err => rfl
  | ok out =>
    simp only [hp] at h ⊢
    obtain ⟨e, he⟩ := Option.isSome_iff_exists.mp h
    exact setNestedParts_atomic _ _ _ e he

theorem docBefore_zero (data : Doc) (start : Doc) (rules : List compiledMappingRule) :
    docBefore data start rules 0 = start := by
  simp [docBefore, docAfter]

theorem docBefore_succ (data : Doc) (start : Doc) (rule : compiledMappingRule)
    (rules : List compiledMappingRule) (i : Nat) :
    docBefore data start (rule :: rules) (i + 1) =
      docBefore data (ruleOutcome data start rule).1 rules i := by
  simp [docBefore, docAfter]

theorem ruleFails_zero (data : Doc) (start : Doc) (rule : compiledMappingRule)
    (rules : List compiledMappingRule) :
    ruleFails data start (rule :: rules) 0 = (ruleOutcome data start rule).2.isSome := by
  simp [ruleFails, docBefore_zero]

theorem ruleFails_succ (data : Doc) (start : Doc) (rule : compiledMappingRule)
    (rules : List compiledMappingRule) (i : Nat) :
    ruleFails data start (rule :: rules) (i + 1) =
      ruleFails data (ruleOutcome data start rule).1 rules i := by
  simp [ruleFails, docBefore_succ]

theorem docBefore_length (data : Doc) (start : Doc) (rules : List compiledMappingRule) :
    docBefore data start rules rules.length = docAfter data start rules := by
  simp [docBefore]

/-- When the rule of index `i` is required and fails, and no required rule
before it fails, the loop returns the error of rule `i` and no document. -/
theorem executeLoop_first_failure (data : Doc) (rules : List compiledMappingRule) (start : Doc)
    (i : Nat) (rule : compiledMappingRule) (e : Err) (hi : rules[i]? = some rule)
    (hreq : rule.Required = true)
    (he : (ruleOutcome data (docBefore data start rules i) rule).2 = some e)
    (hmin : ∀ j rj, j < i → rules[j]? = some rj → rj.Required = true →
      ruleFails data start rules j = false) :
    executeLoop data rules start = (none, some e) := by
  induction rules generalizing start i with
  | nil => simp at hi
  | cons r rs ih =>
    rw [executeLoop_cons]
    cases i with
    | zero =>
      simp only [List.getElem?_cons_zero, Option.some.injEq] at hi
      subst hi
      rw [docBefore_zero] at he
      simp [hreq, he]
    | succ i =>
      have h0 : ¬(r.Required = true ∧ (ruleOutcome data start r).2.isSome = true) := by
        rintro ⟨hr, hf⟩
        have := hmin 0 r (Nat.succ_pos i) (by simp) hr
        rw [ruleFails_zero, hf] at this
        cases this
      rw [if_neg h0]
      apply ih _ i
      · simpa using hi
      · rw [docBefore_succ] at he
        exact he
      · intro j rj hj hrj hreqj
        have := hmin (j + 1) rj (Nat.succ_lt_succ hj) (by simpa using hrj) hreqj
        rw [ruleFails_succ] at this
        exact this

/-- When no required rule fails, the loop returns the document left by all
rules and no error. -/
theorem executeLoop_no_failure (data : Doc) (rules : List compiledMappingRule) (start : Doc)
    (hno : ∀ j rj, rules[j]? = some rj → rj.Required = true →
      ruleFails data start rules j = false) :
    executeLoop data rules start = (some (docAfter data start rules), none) := by
  induction rules generalizing start with
  | nil => simp [executeLoop, docAfter]
  | cons r rs ih =>
    rw [executeLoop_cons]
    have h0 : ¬(r.Required = true ∧ (ruleOutcome data start r).2.isSome = true) := by
      rintro ⟨hr, hf⟩
      have := hno 0 r (by simp) hr
      rw [ruleFails_zero, hf] at this
      cases this
    rw [if_neg h0, ih]
    · simp [docAfter]
    · intro j rj hrj hreqj
      have := hno (j + 1) rj (by simpa using hrj) hreqj
      rw [ruleFails_succ] at this
      exact this

/-- Among the required rules that fail, if any, there is one of least index. -/
theorem exists_first_required_failure (data : Doc) (rules : List compiledMappingRule)
    (start : Doc)
    (h : ∃ i rule, rules[i]? = some rule ∧ rule.Required = true ∧
      ruleFails data start rules i = true) :
    ∃ i rule e, rules[i]? = some rule ∧ rule.Required = true ∧
      (ruleOutcome data (docBefore data start rules i) rule).2 = some e ∧
      ∀ j rj, j < i → rules[j]? = some rj → rj.Required = true →
        ruleFails data start rules j = false := by
  classical
  have h2 : ∃ i, ∃ rule, rules[i]? = some rule ∧ rule.Required = true ∧
      ruleFails data start rules i = true := h
  obtain ⟨rule, hi, hreq, hf⟩ := Nat.find_spec h2
  have hf2 := hf
  simp only [ruleFails, hi] at hf2
  obtain ⟨e, he⟩ := Option.isSome_iff_exists.mp hf2
  refine ⟨Nat.find h2, rule, e, hi, hreq, he, ?_⟩
  intro j rj hj hrj hreqj
  cases hfj : ruleFails data start rules j with
  | false => rfl
  | true => exact absurd ⟨rj, hrj, hreqj, hfj⟩ (Nat.find_min h2 hj)

theorem docBefore_step (data : Doc) (start : Doc) (rules : List compiledMappingRule) (i : Nat)
    (rule : compiledMappingRule) (hi : rules[i]? = some rule) :
    docBefore data start rules (i + 1) =
      (ruleOutcome data (docBefore data start rules i) rule).1 := by
  induction rules generalizing start i with
  | nil => simp at hi
  | cons r rs ih =>
    cases i with
    | zero =>
      simp only [List.getElem?_cons_zero, Option.some.injEq] at hi
      subst hi
      simp [docBefore, docAfter]
    | succ i =>
      rw [docBefore_succ, docBefore_succ]
      exact ih _ i (by simpa using hi)

theorem ruleOutcome_of_eval_error (data : Doc) (doc : Doc) (rule : compiledMappingRule)
    (err : Err) (h : rule.Program data = Except.error err) :
    ruleOutcome data doc rule = (doc, some (Err.evalFailed rule.SourceExpression err)) := by
  simp [ruleOutcome, h]

theorem executeLoop_eraseIdx (data : Doc) (rules : List compiledMappingRule) (start : Doc)
    (i : Nat) (rule : compiledMappingRule) (err : Err) (hi : rules[i]? = some rule)
    (hopt : rule.Required = false) (hfail : rule.Program data = Except.error err) :
    executeLoop data rules start = executeLoop data (rules.eraseIdx i) start := by
  induction rules generalizing start i with
  | nil => simp at hi
  | cons r rs ih =>
    cases i with
    | zero =>
      simp only [List.getElem?_cons_zero, Option.some.injEq] at hi
      subst hi
      rw [executeLoop_cons, ruleOutcome_of_eval_error _ _ _ err hfail]
      simp [hopt]
    | succ i =>
      rw [List.eraseIdx_cons_succ, executeLoop_cons, executeLoop_cons]
      rw [ih _ i (by simpa using hi)]

theorem foldl_foldStep_failed (data : Doc) (rules : List compiledMappingRule) (doc : Doc)
    (e : Err) : rules.foldl (foldStep data) (doc, some e) = (doc, some e) := by
  induction rules with
  | nil => rfl
  | cons r rs ih => simpa [List.foldl_cons, foldStep] using ih

theorem executeLoop_eq_fold (data : Doc) (rules : List compiledMappingRule) (start : Doc) :
    executeLoop data rules start = foldResult (rules.foldl (foldStep data) (start, none)) := by
  induction rules generalizing start with
  | nil => simp [executeLoop, foldResult]
  | cons r rs ih =>
    rw [executeLoop_cons, List.foldl_cons]
    cases hreq : r.Required with
    | false =>
      simp only [foldStep, hreq, Bool.false_eq_true, false_and, if_false]
      exact ih _
    | true =>
      cases ho : (ruleOutcome data start r).2 with
      | none =>
        have hacc : foldStep data (start, none) r = ((ruleOutcome data start r).1, none) := by
          simp only [foldStep, hreq, if_true]
          rw [← ho]
        rw [hacc]
        simpa using ih _
      | some e =>
        have hacc : foldStep data (start, none) r = ((ruleOutcome data start r).1, some e) := by
          simp only [foldStep, hreq, if_true]
          rw [← ho]
        rw [hacc, foldl_foldStep_failed]
        simp [foldResult]

theorem getElem?_take_append (rules later : List compiledMappingRule) (i j : Nat)
    (hi : i < rules.length) (hj : j ≤ i) :
    (rules.take (i + 1) ++ later)[j]? = rules[j]? := by
  rw [List.getElem?_append_left (by simp; omega)]
  rw [List.getElem?_take_of_lt (by omega)]

theorem take_take_append (rules later : List compiledMappingRule) (i j : Nat)
    (hi : i < rules.length) (hj : j ≤ i) :
    (rules.take (i + 1) ++ later).take j = rules.take j := by
  rw [List.take_append_of_le_length (by simp; omega), List.take_take]
  congr 1
  omega

theorem docBefore_take_append (data : Doc) (start : Doc) (rules later : List compiledMappingRule)
    (i j : Nat) (hi : i < rules.length) (hj : j ≤ i) :
    docBefore data start (rules.take (i + 1) ++ later) j = docBefore data start rules j := by
  unfold docBefore
  rw [take_take_append rules later i j hi hj]

theorem ruleFails_take_append (data : Doc) (start : Doc) (rules later : List compiledMappingRule)
    (i j : Nat) (hi : i < rules.length) (hj : j ≤ i) :
    ruleFails data start (rules.take (i + 1) ++ later) j = ruleFails data start rules j := by
  unfold ruleFails
  rw [getElem?_take_append rules later i j hi hj, docBefore_take_append _ _ _ _ _ _ hi hj]

theorem lt_length_of_getElem? {α : Type} (l : List α) (i : Nat) (a : α) (h : l[i]? = some a) :
    i < l.length := by
  by_contra hlt
  rw [List.getElem?_eq_none (by omega)] at h
  cases h

theorem successfulWrites_cons (data : Doc) (start : Doc) (r : compiledMappingRule)
    (rs : List compiledMappingRule) :
    successfulWrites data start (r :: rs) =
      (if (ruleOutcome data start r).2.isSome then [] else (ruleWrite data r).toList) ++
        successfulWrites data (ruleOutcome data start r).1 rs := by
  unfold successfulWrites
  rw [List.length_cons, List.range_succ_eq_map, List.filterMap_cons, List.filterMap_map]
  have hfun : ((fun i => if ruleFails data start (r :: rs) i = true then none
        else (r :: rs)[i]?.bind (ruleWrite data)) ∘ Nat.succ) =
      (fun i => if ruleFails data (ruleOutcome data start r).1 rs i = true then none
        else rs[i]?.bind (ruleWrite data)) := by
    funext i
    simp [ruleFails_succ]
  rw [hfun, ruleFails_zero]
  cases hf : (ruleOutcome data start r).2.isSome with
  | true => simp
  | false =>
    cases hw : ruleWrite data r with
    | none => simp [hw]
    | some w => simp [hw]

theorem ruleWrite_of_success (data : Doc) (start : Doc) (r : compiledMappingRule)
    (h : (ruleOutcome data start r).2 = none) :
    ∃ w, ruleWrite data r = some w ∧ setNestedPath start w.1 w.2 = ruleOutcome data start r := by
  unfold ruleOutcome at h ⊢
  unfold ruleWrite
  cases hp : r.Program data with
  | error err => simp [hp] at h
  | ok out => exact ⟨_, rfl, rfl⟩

theorem executeLoop_applyWrites (data : Doc) (rules : List compiledMappingRule) (start : Doc)
    (doc : Doc) (h : executeLoop data rules start = (some doc, none)) :
    applyWrites start (successfulWrites data start rules) = some doc := by
  induction rules generalizing start with
  | nil =>
    simp only [executeLoop, Prod.mk.injEq, Option.some.injEq, and_true] at h
    simp [successfulWrites, applyWrites, h]
  | cons r rs ih =>
    rw [executeLoop_cons] at h
    rw [successfulWrites_cons]
    cases ho : (ruleOutcome data start r).2 with
    | some e =>
      have hat := ruleOutcome_atomic data start r (by simp [ho])
      by_cases hreq : r.Required = true
      · simp [hreq, ho] at h
      · rw [if_neg (by simp [hreq])] at h
        have := ih _ h
        rw [hat] at this
        simpa [ho, hat] using this
    | none =>
      rw [if_neg (by simp [ho])] at h
      obtain ⟨w, hw, hset⟩ := ruleWrite_of_success data start r ho
      have := ih _ h
      simp only [Option.isSome_none, Bool.false_eq_true, if_false, hw, Option.toList_some,
        List.singleton_append, applyWrites, hset, ho]
      exact this

theorem executeLoop_success (data : Doc) (rules : List compiledMappingRule) (start : Doc)
    (doc : Doc) (h : executeLoop data rules start = (some doc, none)) :
    doc = docAfter data start rules ∧
    ∀ j rj, rules[j]? = some rj → rj.Required = true → ruleFails data start rules j = false := by
  have hno : ∀ j rj, rules[j]? = some rj → rj.Required = true →
      ruleFails data start rules j = false := by
    intro j rj hj hreq
    cases hf : ruleFails data start rules j with
    | false => rfl
    | true =>
      obtain ⟨i, rule, e, hi, hreqi, he, hmin⟩ :=
        exists_first_required_failure data rules start ⟨j, rj, hj, hreq, hf⟩
      rw [executeLoop_first_failure _ _ _ i rule e hi hreqi he hmin] at h
      cases h
  refine ⟨?_, hno⟩
  rw [executeLoop_no_failure _ _ _ hno] at h
  simp only [Prod.mk.injEq, Option.some.injEq, and_true] at h
  exact h.symm

theorem executeLoop_write_conflict (data : Doc) (rule : compiledMappingRule)
    (rules : List compiledMappingRule) (doc : Doc) (out : RefVal) (e : Err)
    (hp : rule.Program data = Except.ok out)
    (hw : ∀ w, setNestedPath doc rule.TargetPropPath w = (doc, some e)) :
    executeLoop data (rule :: rules) doc =
      if rule.Required = true then (none, some e) else executeLoop data rules doc := by
  rw [executeLoop_cons]
  have ho : ruleOutcome data doc rule = (doc, some e) := by
    simp [ruleOutcome, hp, hw]
  rw [ho]
  cases rule.Required <;> simp

theorem setNestedParts_strict_extension (doc : Doc) (ps qs : List String) (v : Any)
    (hps : ps ≠ []) (hpre : ps <+: qs) (hne : ps ≠ qs) (hv : v.isMapping = false)
    (h : (setNestedParts doc ps v).2 = none) (w : Any) :
    setNestedParts (setNestedParts doc ps v).1 qs w =
      ((setNestedParts doc ps v).1, some (pathConflict (ps.getLast hps))) := by
  obtain ⟨ext, rfl⟩ := hpre
  cases ext with
  | nil => simp at hne
  | cons a ext =>
    exact setNestedParts_below_leaf doc ps a ext v w hps ((isMapping_eq_false_iff v).mp hv) h

theorem convertLoop_eq_findSome (out : RefVal) (ts : List NativeType) :
    convertLoop out ts =
      match ts.findSome? (fun t =>
        match out.ConvertToNative t with
        | Except.ok v => some v
        | Except.error _ => none) with
      | some v => v
      | none => Any.nil := by
  induction ts with
  | nil => rfl
  | cons t ts ih =>
    rw [convertLoop, List.findSome?_cons]
    cases out.ConvertToNative t with
    | ok v => rfl
    | error e => exact ih

/-! ## Lemmas on `compileMappers` -/

theorem compileError_eq_none {Ast : Type} (env : Env Ast) (rule : MappingRule)
    (h : compileError env rule = none) :
    ∃ ast prog, env.Compile rule.SourceExpression = Except.ok ast ∧
      env.Program ast = Except.ok prog := by
  unfold compileError at h
  cases hc : env.Compile rule.SourceExpression with
  | error err => simp [hc] at h
  | ok ast =>
    cases hp : env.Program ast with
    | error err => simp [hc, hp] at h
    | ok prog => exact ⟨ast, prog, rfl, hp⟩

theorem compileLoop_cons_ok {Ast : Type} (env : Env Ast) (r : MappingRule)
    (rs : List MappingRule) (cm : List compiledMappingRule) (ast : Ast)
    (prog : Doc → Except Err RefVal) (hc : env.Compile r.SourceExpression = Except.ok ast)
    (hp : env.Program ast = Except.ok prog) :
    compileLoop env (r :: rs) cm =
      compileLoop env rs (cm ++ [{ toMappingRule := r, Program := prog }]) := by
  rw [compileLoop]
  simp only [hc, hp]

theorem compileLoop_cons_error {Ast : Type} (env : Env Ast) (r : MappingRule)
    (rs : List MappingRule) (cm : List compiledMappingRule) (e : Err)
    (he : compileError env r = some e) :
    compileLoop env (r :: rs) cm = Except.error e := by
  unfold compileError at he
  rw [compileLoop]
  cases hc : env.Compile r.SourceExpression with
  | error err => simpa [hc] using he
  | ok ast =>
    cases hp : env.Program ast with
    | error err => simpa [hc, hp] using he
    | ok prog => simp [hc, hp] at he

theorem compileLoop_ok {Ast : Type} (env : Env Ast) (rules : List MappingRule)
    (cm : List compiledMappingRule) (h : ∀ rule, rule ∈ rules → compileError env rule = none) :
    ∃ out, compileLoop env rules cm = Except.ok (cm ++ out) ∧
      out.map compiledMappingRule.toMappingRule = rules := by
  induction rules generalizing cm with
  | nil => exact ⟨[], by simp [compileLoop], rfl⟩
  | cons r rs ih =>
    obtain ⟨ast, prog, hc, hp⟩ := compileError_eq_none env r (h r (List.mem_cons_self r rs))
    obtain ⟨out, hout, hmap⟩ :=
      ih (cm ++ [{ toMappingRule := r, Program := prog }])
        (fun rule hrule => h rule (List.mem_cons_of_mem r hrule))
    refine ⟨{ toMappingRule := r, Program := prog } :: out, ?_, ?_⟩
    · rw [compileLoop_cons_ok env r rs cm ast prog hc hp, hout]
      simp
    · simp [hmap]

theorem compileLoop_error {Ast : Type} (env : Env Ast) (rules : List MappingRule)
    (cm : List compiledMappingRule) (i : Nat) (rule : MappingRule) (e : Err)
    (hi : rules[i]? = some rule) (he : compileError env rule = some e)
    (hmin : ∀ (j : Nat) (rj : MappingRule), j < i → rules[j]? = some rj →
      compileError env rj = none) :
    compileLoop env rules cm = Except.error e := by
  induction rules generalizing cm i with
  | nil => simp at hi
  | cons r rs ih =>
    cases i with
    | zero =>
      simp only [List.getElem?_cons_zero, Option.some.injEq] at hi
      subst hi
      exact compileLoop_cons_error env r rs cm e he
    | succ i =>
      obtain ⟨ast, prog, hc, hp⟩ :=
        compileError_eq_none env r (hmin 0 r (Nat.succ_pos i) (by simp))
      rw [compileLoop_cons_ok env r rs cm ast prog hc hp]
      exact ih _ i (by simpa using hi)
        (fun j rj hj hrj => hmin (j + 1) rj (Nat.succ_lt_succ hj) (by simpa using hrj))

theorem exists_first_compile_error {Ast : Type} (env : Env Ast) (rules : List MappingRule)
    (h : ∃ (i : Nat) (rule : MappingRule), rules[i]? = some rule ∧ (compileError env rule).isSome = true) :
    ∃ (i : Nat) (rule : MappingRule) (e : Err), rules[i]? = some rule ∧ compileError env rule = some e ∧
      ∀ (j : Nat) (rj : MappingRule), j < i → rules[j]? = some rj → compileError env rj = none := by
  classical
  have h2 : ∃ i : Nat, ∃ rule : MappingRule, rules[i]? = some rule ∧
      (compileError env rule).isSome = true := h
  obtain ⟨rule, hi, hsome⟩ := Nat.find_spec h2
  obtain ⟨e, he⟩ := Option.isSome_iff_exists.mp hsome
  refine ⟨Nat.find h2, rule, e, hi, he, ?_⟩
  intro j rj hj hrj
  cases hcj : compileError env rj with
  | none => rfl
  | some e2 => exact absurd ⟨rj, hrj, by simp [hcj]⟩ (Nat.find_min h2 hj)

/-! ## Lemmas on the failure of one rule in the loop of `Execute` -/

theorem executeLoop_of_failure (data : Doc) (rule : compiledMappingRule)
    (rules : List compiledMappingRule) (doc : Doc) (e : Err)
    (h : (ruleOutcome data doc rule).2 = some e) :
    executeLoop data (rule :: rules) doc =
      if rule.Required = true then (none, some e) else executeLoop data rules doc := by
  rw [executeLoop_cons, h, ruleOutcome_atomic data doc rule (by simp [h])]
  cases rule.Required <;> simp

/-! ## Lemmas on what a write leaves alone -/

theorem getPath_isSome_of_append (x v : Any) (p q : List String)
    (h : x.getPath (p ++ q) = some v) : (x.getPath p).isSome = true := by
  rw [getPath_append] at h
  cases hp : x.getPath p with
  | none => simp [hp] at h
  | some y => rfl

theorem getPath_take_of_conflictAt (doc : Doc) (parts : List String) (k : Nat)
    (h : conflictAt doc parts k = true) :
    ((Any.mapping doc).getPath (parts.take (k + 1))).isSome = true := by
  induction parts generalizing doc k with
  | nil => exact absurd (conflictAt_lt h) (by simp)
  | cons part rest ih =>
    cases rest with
    | nil => exact absurd (conflictAt_lt h) (by simp)
    | cons p2 rest =>
      cases k with
      | zero =>
        rw [conflictAt_zero] at h
        cases hg : mapGet doc part with
        | none => simp [hg] at h
        | some x =>
          rw [Nat.zero_add, List.take_succ_cons, List.take_zero, getPath_mapping_cons, hg]
          rfl
      | succ k =>
        rw [conflictAt_succ] at h
        cases hg : mapGet doc part with
        | none => simp [hg] at h
        | some x =>
          cases hx : x.asMapping with
          | none => simp [hg, hx] at h
          | some next =>
            have hxe := asMapping_eq_some hx
            subst hxe
            simp only [hg, Option.some_bind, Any.asMapping] at h
            rw [List.take_succ_cons, getPath_mapping_cons, hg]
            exact ih next k h

theorem setNestedPath_empty_ok (path : String) (value : Any) :
    (setNestedPath [] path value).2 = none := by
  unfold setNestedPath
  cases hs : Split path with
  | nil => exact absurd hs (Split_ne_nil path)
  | cons a l => rw [setNestedParts_empty]

/-! ## Lemmas on paths without a separator and on the exit of the loop -/

theorem splitChars_of_not_mem (sep : Char) (cs : List Char) (h : sep ∉ cs) :
    splitChars sep cs = [cs] := by
  induction cs with
  | nil => rfl
  | cons c cs ih =>
    have hc : ¬c = sep := fun hcs => h (by simp [hcs])
    have hcs : sep ∉ cs := fun hm => h (List.mem_cons_of_mem c hm)
    rw [splitChars, if_neg hc, ih hcs]

theorem Split_of_no_dot (path : String) (h : '.' ∉ path.data) : Split path = [path] := by
  unfold Split
  rw [splitChars_of_not_mem '.' path.data h]
  rfl

theorem setNestedExit_spec (current : Doc) (parts : List String) (value : Any)
    (hne : parts ≠ []) :
    (setNestedExit current parts).1 ≠ Exit.afterLoop ∧
    1 ≤ (setNestedExit current parts).2 ∧
    (setNestedExit current parts).2 ≤ parts.length ∧
    ((setNestedExit current parts).1 = Exit.atFinalSegment ↔
      (setNestedParts current parts value).2 = none) ∧
    ((setNestedExit current parts).1 = Exit.atFinalSegment →
      (setNestedExit current parts).2 = parts.length) := by
  induction parts generalizing current with
  | nil => exact absurd rfl hne
  | cons part rest ih =>
    cases rest with
    | nil => simp [setNestedExit, setNestedParts]
    | cons p2 rest =>
      rw [setNestedExit.eq_3 _ _ _ (by simp), setNestedParts.eq_3 _ _ _ _ (by simp)]
      simp only
      cases hb : (mapGet (if (mapGet current part).isSome = true then current
          else mapSet current part (Any.mapping [])) part).bind Any.asMapping with
      | none => simp
      | some next =>
        obtain ⟨h1, h2, h3, h4, h5⟩ := ih next (by simp)
        simp only [List.length_cons] at h3 h5 ⊢
        refine ⟨h1, by omega, by omega, h4, ?_⟩
        intro hf
        have := h5 hf
        omega

/-! ## Lemmas on the frame of a write -/

theorem setNestedParts_descend (current : Doc) (part p2 : String) (rest : List String)
    (value : Any) (m : Doc)
    (h : (mapGet current part = none ∧ m = []) ∨ mapGet current part = some (Any.mapping m)) :
    setNestedParts current (part :: p2 :: rest) value =
      (mapSet current part (Any.mapping (setNestedParts m (p2 :: rest) value).1),
       (setNestedParts m (p2 :: rest) value).2) := by
  rcases h with ⟨hg, hm⟩ | hg
  · subst hm
    exact setNestedParts_absent current part p2 rest value hg
  · exact setNestedParts_mapping current part p2 rest value m hg

theorem mapGet_cases (current : Doc) (part : String) :
    (∃ m, (mapGet current part = none ∧ m = []) ∨ mapGet current part = some (Any.mapping m)) ∨
    ∃ x, mapGet current part = some x ∧ x.asMapping = none := by
  cases hg : mapGet current part with
  | none => exact Or.inl ⟨[], Or.inl ⟨rfl, rfl⟩⟩
  | some x =>
    cases hx : x.asMapping with
    | none => exact Or.inr ⟨x, rfl, hx⟩
    | some m => exact Or.inl ⟨m, Or.inr (by rw [asMapping_eq_some hx])⟩

theorem setNestedParts_other_key (current : Doc) (part : String) (rest : List String)
    (value : Any) (k : String) (hk : part ≠ k) :
    mapGet (setNestedParts current (part :: rest) value).1 k = mapGet current k := by
  cases rest with
  | nil => simp [setNestedParts, mapGet_mapSet_ne _ _ _ _ hk]
  | cons p2 rest =>
    rcases mapGet_cases current part with ⟨m, hm⟩ | ⟨x, hg, hx⟩
    · rw [setNestedParts_descend current part p2 rest value m hm]
      exact mapGet_mapSet_ne _ _ _ _ hk
    · rw [setNestedParts_conflict current part p2 rest value x hg hx]

theorem getPath_empty_cons (part : String) (rest : List String) :
    (Any.mapping []).getPath (part :: rest) = none := by
  rw [getPath_mapping_cons]
  rfl

theorem getPath_of_descend (current : Doc) (part : String) (m : Doc) (q : List String)
    (hq : q ≠ [])
    (h : (mapGet current part = none ∧ m = []) ∨ mapGet current part = some (Any.mapping m)) :
    (Any.mapping current).getPath (part :: q) = (Any.mapping m).getPath q := by
  rw [getPath_mapping_cons]
  rcases h with ⟨hg, hm⟩ | hg
  · subst hm
    cases q with
    | nil => exact absurd rfl hq
    | cons a l => rw [hg, getPath_empty_cons]; rfl
  · rw [hg]
    rfl

theorem setNestedParts_frame (current : Doc) (parts : List String) (value : Any)
    (h : (setNestedParts current parts value).2 = none) (q : List String)
    (hpq : ¬parts <+: q) (hqp : ¬q <+: parts) :
    (Any.mapping (setNestedParts current parts value).1).getPath q =
      (Any.mapping current).getPath q := by
  induction parts generalizing current q with
  | nil => exact absurd (List.nil_prefix (l := q)) hpq
  | cons part rest ih =>
    cases q with
    | nil => exact absurd (List.nil_prefix (l := part :: rest)) hqp
    | cons b q =>
      by_cases hb : part = b
      · subst hb
        rw [List.cons_prefix_cons] at hpq hqp
        have hpq2 : ¬rest <+: q := fun hp => hpq ⟨rfl, hp⟩
        have hqp2 : ¬q <+: rest := fun hp => hqp ⟨rfl, hp⟩
        have hq : q ≠ [] := fun hq0 => hqp2 (by rw [hq0]; exact List.nil_prefix)
        cases rest with
        | nil => exact absurd (List.nil_prefix (l := q)) hpq2
        | cons p2 rest =>
          rcases mapGet_cases current part with ⟨m, hm⟩ | ⟨x, hg, hx⟩
          · rw [setNestedParts_descend current part p2 rest value m hm] at h ⊢
            simp only at h ⊢
            rw [getPath_mapping_cons, mapGet_mapSet_same, getPath_of_descend current part m q hq hm]
            exact ih m h q hpq2 hqp2
          · rw [setNestedParts_conflict current part p2 rest value x hg hx] at h
            cases h
      · rw [getPath_mapping_cons, getPath_mapping_cons,
          setNestedParts_other_key current part rest value b hb]

/-! ## Lemmas on writes to divergent paths -/

theorem sameDoc_refl (d : Doc) : sameDoc d d := fun _ => rfl

theorem sameDoc_of_mapGet_eq (d1 d2 : Doc) (h : ∀ k, mapGet d1 k = mapGet d2 k) :
    sameDoc d1 d2 := by
  intro q
  cases q with
  | nil => rfl
  | cons k q => rw [getPath_mapping_cons, getPath_mapping_cons, h k]

theorem sameDoc_mapSet (d m1 m2 : Doc) (a : String) (h : sameDoc m1 m2) :
    sameDoc (mapSet d a (Any.mapping m1)) (mapSet d a (Any.mapping m2)) := by
  intro q
  cases q with
  | nil => rfl
  | cons k q =>
    rw [getPath_mapping_cons, getPath_mapping_cons]
    by_cases hk : a = k
    · subst hk
      rw [mapGet_mapSet_same, mapGet_mapSet_same]
      exact h q
    · rw [mapGet_mapSet_ne _ _ _ _ hk, mapGet_mapSet_ne _ _ _ _ hk]

theorem setNestedParts_depends_on_key (c1 c2 : Doc) (part : String) (rest : List String)
    (value : Any) (h : mapGet c1 part = mapGet c2 part) :
    (setNestedParts c1 (part :: rest) value).2 = (setNestedParts c2 (part :: rest) value).2 ∧
    mapGet (setNestedParts c1 (part :: rest) value).1 part =
      mapGet (setNestedParts c2 (part :: rest) value).1 part := by
  cases rest with
  | nil => simp [setNestedParts, mapGet_mapSet_same]
  | cons p2 rest =>
    rcases mapGet_cases c1 part with ⟨m, hm⟩ | ⟨x, hg, hx⟩
    · have hm2 : (mapGet c2 part = none ∧ m = []) ∨ mapGet c2 part = some (Any.mapping m) := by
        rw [← h]
        exact hm
      rw [setNestedParts_descend c1 part p2 rest value m hm,
        setNestedParts_descend c2 part p2 rest value m hm2]
      simp [mapGet_mapSet_same]
    · rw [setNestedParts_conflict c1 part p2 rest value x hg hx,
        setNestedParts_conflict c2 part p2 rest value x (by rw [← h]; exact hg) hx]
      exact ⟨rfl, h⟩

theorem setNestedParts_commute (current : Doc) (p1 p2 : List String) (v1 v2 : Any)
    (h12 : ¬p1 <+: p2) (h21 : ¬p2 <+: p1) :
    (setNestedParts (setNestedParts current p2 v2).1 p1 v1).2 =
      (setNestedParts current p1 v1).2 ∧
    (setNestedParts (setNestedParts current p1 v1).1 p2 v2).2 =
      (setNestedParts current p2 v2).2 ∧
    sameDoc (setNestedParts (setNestedParts current p1 v1).1 p2 v2).1
      (setNestedParts (setNestedParts current p2 v2).1 p1 v1).1 := by
  induction p1 generalizing current p2 with
  | nil => exact absurd (List.nil_prefix (l := p2)) h12
  | cons a t1 ih =>
    cases p2 with
    | nil => exact absurd (List.nil_prefix (l := a :: t1)) h21
    | cons b t2 =>
      by_cases hab : a = b
      · subst hab
        rw [List.cons_prefix_cons] at h12 h21
        have h12t : ¬t1 <+: t2 := fun hp => h12 ⟨rfl, hp⟩
        have h21t : ¬t2 <+: t1 := fun hp => h21 ⟨rfl, hp⟩
        cases t1 with
        | nil => exact absurd (List.nil_prefix (l := t2)) h12t
        | cons c1 t1 =>
          cases t2 with
          | nil => exact absurd (List.nil_prefix (l := c1 :: t1)) h21t
          | cons c2 t2 =>
            rcases mapGet_cases current a with ⟨m, hm⟩ | ⟨x, hg, hx⟩
            · obtain ⟨ih1, ih2, ih3⟩ := ih m (c2 :: t2) h12t h21t
              rw [setNestedParts_descend current a c1 t1 v1 m hm,
                setNestedParts_descend current a c2 t2 v2 m hm]
              simp only
              rw [setNestedParts_descend _ a c1 t1 v1 _ (Or.inr (mapGet_mapSet_same _ _ _)),
                setNestedParts_descend _ a c2 t2 v2 _ (Or.inr (mapGet_mapSet_same _ _ _))]
              simp only [mapSet_mapSet_same]
              exact ⟨ih1, ih2, sameDoc_mapSet current _ _ a ih3⟩
            · simp only [setNestedParts_conflict current a c1 t1 v1 x hg hx,
                setNestedParts_conflict current a c2 t2 v2 x hg hx]
              exact ⟨trivial, trivial, sameDoc_refl current⟩
      · have hba : b ≠ a := fun hh => hab hh.symm
        have ha2 := setNestedParts_other_key current b t2 v2 a hba
        have hb1 := setNestedParts_other_key current a t1 v1 b hab
        obtain ⟨he1, hk1⟩ := setNestedParts_depends_on_key
          (setNestedParts current (b :: t2) v2).1 current a t1 v1 ha2
        obtain ⟨he2, hk2⟩ := setNestedParts_depends_on_key
          (setNestedParts current (a :: t1) v1).1 current b t2 v2 hb1
        refine ⟨he1, he2, sameDoc_of_mapGet_eq _ _ ?_⟩
        intro k
        by_cases hka : a = k
        · subst hka
          rw [setNestedParts_other_key _ b t2 v2 a hba, hk1]
        · rw [setNestedParts_other_key _ a t1 v1 k hka]
          by_cases hkb : b = k
          · subst hkb
            rw [hk2]
          · rw [setNestedParts_other_key _ b t2 v2 k hkb,
              setNestedParts_other_key _ b t2 v2 k hkb,
              setNestedParts_other_key _ a t1 v1 k hka]

theorem sameDoc_mapGet (d1 d2 : Doc) (h : sameDoc d1 d2) (k : String) :
    (mapGet d1 k).map Any.shape = (mapGet d2 k).map Any.shape := by
  have hk := h [k]
  have hbind : ∀ o : Option Any, (o.bind fun y => y.getPath []) = o := by
    intro o
    cases o <;> rfl
  rw [getPath_mapping_cons, getPath_mapping_cons, hbind, hbind] at hk
  exact hk

/-! ## Documents as values: what holds while no map object is shared

The statements of this section are about the value embedding, in which a
mapping is copied where Go passes a reference and every rule is evaluated on the
input as it was passed.  They describe `setNestedPath` and `Execute` on
documents in which no map object is reached along two paths.  `Execute` also
builds documents in which one is, as the store embedding shows in the section
of the claims; for those the statements of this section say nothing. -/

/-- With every rule evaluated on the input as it was passed: when the rule of index `i` is optional and its evaluation fails on the
input, `Execute` returns what it returns for the rule list without that rule;
the rule leaves the document as it found it. -/
theorem Execute_optional_eval_failure (m : Mapper) (input : Doc) (i : Nat)
    (rule : compiledMappingRule) (err : Err) (hi : m.CompiledMappingRules[i]? = some rule)
    (hopt : rule.Required = false)
    (hfail : rule.Program [("self", Any.mapping input)] = Except.error err) :
    m.Execute input = (Mapper.mk (m.CompiledMappingRules.eraseIdx i)).Execute input ∧
    docBefore [("self", Any.mapping input)] [] m.CompiledMappingRules (i + 1) =
      docBefore [("self", Any.mapping input)] [] m.CompiledMappingRules i := by
  constructor
  · exact executeLoop_eraseIdx _ _ _ i rule err hi hopt hfail
  · rw [docBefore_step _ _ _ i rule hi, ruleOutcome_of_eval_error _ _ _ err hfail]

/-- An instance with every rule evaluated on the input as passed: the test "failing but optional rule", whose first rule is
optional and fails to evaluate. -/
theorem Execute_optional_eval_failure_witness :
    optionalMapper.Execute testInput =
      (Mapper.mk (optionalMapper.CompiledMappingRules.eraseIdx 0)).Execute testInput ∧
    docBefore [("self", Any.mapping testInput)] [] optionalMapper.CompiledMappingRules (0 + 1) =
      docBefore [("self", Any.mapping testInput)] [] optionalMapper.CompiledMappingRules 0 :=
  Execute_optional_eval_failure optionalMapper testInput 0 (nameRule false)
    (Err.engine "no such key") rfl rfl rfl

/-- For documents without shared map objects: after a successful `setNestedPath`, reading the resulting document
along the segments of the path finds a mapping after every proper initial part
of the path and the written value at the end. -/
theorem setNestedPath_read_after_write (doc : Doc) (path : String) (value : Any)
    (h : (setNestedPath doc path value).2 = none) :
    (Any.mapping (setNestedPath doc path value).1).getPath (Split path) = some value ∧
    ∀ k, k < (Split path).length →
      ∃ m, (Any.mapping (setNestedPath doc path value).1).getPath ((Split path).take k) =
        some (Any.mapping m) := by
  have hread := setNestedParts_read doc (Split path) value (Split_ne_nil path) h
  refine ⟨hread, ?_⟩
  intro k hk
  have hsplit := List.take_append_drop k (Split path)
  have hdrop : (Split path).drop k ≠ [] := by
    intro hd
    have := List.drop_eq_nil_iff.mp hd
    omega
  apply getPath_through_mapping _ value _ _ hdrop
  rw [hsplit]
  exact hread

/-- An instance without shared map objects: writing `a.b` into a document whose `a` is a mapping. -/
theorem setNestedPath_read_after_write_witness :
    (Any.mapping (setNestedPath [("a", Any.mapping [("x", Any.int64 1)])] "a.b"
        (Any.string "v")).1).getPath (Split "a.b") = some (Any.string "v") ∧
    ∀ k, k < (Split "a.b").length →
      ∃ m, (Any.mapping (setNestedPath [("a", Any.mapping [("x", Any.int64 1)])] "a.b"
        (Any.string "v")).1).getPath ((Split "a.b").take k) = some (Any.mapping m) :=
  setNestedPath_read_after_write [("a", Any.mapping [("x", Any.int64 1)])] "a.b"
    (Any.string "v") rfl

/-- For documents without shared map objects: when `setNestedPath` with a path and `v1` succeeds, a following
`setNestedPath` with the same path and `v2` succeeds as well and leaves the
document that the single write of `v2` leaves; the path then reads `v2`. -/
theorem setNestedPath_last_writer_wins (doc : Doc) (path : String) (v1 v2 : Any)
    (h : (setNestedPath doc path v1).2 = none) :
    (setNestedPath (setNestedPath doc path v1).1 path v2).2 = none ∧
    (setNestedPath (setNestedPath doc path v1).1 path v2).1 = (setNestedPath doc path v2).1 ∧
    (Any.mapping (setNestedPath (setNestedPath doc path v1).1 path v2).1).getPath (Split path) =
      some v2 := by
  have h2 : (setNestedPath doc path v2).2 = none := by
    unfold setNestedPath at h ⊢
    rw [setNestedParts_error_indep _ _ v2 v1]
    exact h
  have heq : setNestedPath (setNestedPath doc path v1).1 path v2 = setNestedPath doc path v2 :=
    setNestedParts_overwrite doc (Split path) v1 v2 h
  rw [heq]
  exact ⟨h2, rfl, setNestedParts_read doc (Split path) v2 (Split_ne_nil path) h2⟩

/-- An instance without shared map objects: a mapping written at `a.b` is replaced by a string. -/
theorem setNestedPath_last_writer_wins_witness :
    (setNestedPath (setNestedPath [] "a.b" (Any.mapping [("k", Any.bool true)])).1 "a.b"
      (Any.string "w")).2 = none ∧
    (setNestedPath (setNestedPath [] "a.b" (Any.mapping [("k", Any.bool true)])).1 "a.b"
      (Any.string "w")).1 = (setNestedPath [] "a.b" (Any.string "w")).1 ∧
    (Any.mapping (setNestedPath (setNestedPath [] "a.b"
      (Any.mapping [("k", Any.bool true)])).1 "a.b" (Any.string "w")).1).getPath (Split "a.b") =
      some (Any.string "w") :=
  setNestedPath_last_writer_wins [] "a.b" (Any.mapping [("k", Any.bool true)]) (Any.string "w")
    rfl

/-- For documents without shared map objects: a successful `setNestedPath` leaves every key other than the first
segment of the path with its value, and every list of segments `q`, such that
neither `q` nor the segments of the path are an initial part of the other,
reads in the resulting document as it reads in the document before: the same
value or the same absence. -/
theorem setNestedPath_frame (doc : Doc) (p : String) (v : Any)
    (h : (setNestedPath doc p v).2 = none) :
    (∀ k, (Split p).head? ≠ some k → mapGet (setNestedPath doc p v).1 k = mapGet doc k) ∧
    ∀ q : List String, ¬Split p <+: q → ¬q <+: Split p →
      (Any.mapping (setNestedPath doc p v).1).getPath q = (Any.mapping doc).getPath q := by
  refine ⟨?_, fun q hpq hqp => setNestedParts_frame doc (Split p) v h q hpq hqp⟩
  intro k hk
  unfold setNestedPath
  cases hs : Split p with
  | nil => exact absurd hs (Split_ne_nil p)
  | cons a l =>
    rw [hs] at hk
    exact setNestedParts_other_key doc a l v k (fun hak => hk (by simp [hak]))

/-- An instance without shared map objects: the write at `a.b` into a document with `a.c` and `d`. -/
theorem setNestedPath_frame_witness :
    (∀ k, (Split "a.b").head? ≠ some k →
      mapGet (setNestedPath [("a", Any.mapping [("c", Any.int64 1)]), ("d", Any.bool true)]
        "a.b" (Any.string "v")).1 k =
      mapGet [("a", Any.mapping [("c", Any.int64 1)]), ("d", Any.bool true)] k) ∧
    ∀ q : List String, ¬Split "a.b" <+: q → ¬q <+: Split "a.b" →
      (Any.mapping (setNestedPath [("a", Any.mapping [("c", Any.int64 1)]), ("d", Any.bool true)]
        "a.b" (Any.string "v")).1).getPath q =
      (Any.mapping [("a", Any.mapping [("c", Any.int64 1)]), ("d", Any.bool true)]).getPath q :=
  setNestedPath_frame [("a", Any.mapping [("c", Any.int64 1)]), ("d", Any.bool true)] "a.b"
    (Any.string "v") rfl

/-- For documents without shared map objects: for two paths of which neither has segments that are an initial part
of the segments of the other, writing the first and then the second, and
writing the second and then the first, give each write the same outcome (the
same success or the same error) and leave documents that hold the same keys
with the same values. -/
theorem setNestedPath_divergent_commute (doc : Doc) (p1 p2 : String) (v1 v2 : Any)
    (h12 : ¬Split p1 <+: Split p2) (h21 : ¬Split p2 <+: Split p1) :
    (setNestedPath (setNestedPath doc p2 v2).1 p1 v1).2 = (setNestedPath doc p1 v1).2 ∧
    (setNestedPath (setNestedPath doc p1 v1).1 p2 v2).2 = (setNestedPath doc p2 v2).2 ∧
    sameDoc (setNestedPath (setNestedPath doc p1 v1).1 p2 v2).1
      (setNestedPath (setNestedPath doc p2 v2).1 p1 v1).1 :=
  setNestedParts_commute doc (Split p1) (Split p2) v1 v2 h12 h21

/-- An instance without shared map objects: the writes at `a.b` and at `a.c` into the empty document. -/
theorem setNestedPath_divergent_commute_witness :
    (setNestedPath (setNestedPath [] "a.c" (Any.int64 2)).1 "a.b" (Any.int64 1)).2 =
      (setNestedPath [] "a.b" (Any.int64 1)).2 ∧
    (setNestedPath (setNestedPath [] "a.b" (Any.int64 1)).1 "a.c" (Any.int64 2)).2 =
      (setNestedPath [] "a.c" (Any.int64 2)).2 ∧
    sameDoc (setNestedPath (setNestedPath [] "a.b" (Any.int64 1)).1 "a.c" (Any.int64 2)).1
      (setNestedPath (setNestedPath [] "a.c" (Any.int64 2)).1 "a.b" (Any.int64 1)).1 :=
  setNestedPath_divergent_commute [] "a.b" "a.c" (Any.int64 1) (Any.int64 2)
    (by decide) (by decide)

/-- The two orders of the writes at `a.b` and `a.c` keep the keys in different
orders, and succeed both. -/
theorem setNestedPath_divergent_orders :
    setNestedPath (setNestedPath [] "a.b" (Any.int64 1)).1 "a.c" (Any.int64 2) =
      ([("a", Any.mapping [("b", Any.int64 1), ("c", Any.int64 2)])], none) ∧
    setNestedPath (setNestedPath [] "a.c" (Any.int64 2)).1 "a.b" (Any.int64 1) =
      ([("a", Any.mapping [("c", Any.int64 2), ("b", Any.int64 1)])], none) :=
  ⟨rfl, rfl⟩

/-- Documents that differ in the value of a key, or in the presence of a key,
are not the same. -/
theorem sameDoc_distinguishes :
    ¬sameDoc [("a", Any.int64 1)] [("a", Any.int64 2)] ∧
    ¬sameDoc [("a", Any.int64 1)] [] ∧
    sameDoc [("a", Any.int64 1), ("b", Any.int64 2)] [("b", Any.int64 2), ("a", Any.int64 1)] := by
  refine ⟨?_, ?_, ?_⟩
  · intro h
    have h2 := sameDoc_mapGet _ _ h "a"
    simp [mapGet, Any.shape] at h2
  · intro h
    have h2 := sameDoc_mapGet _ _ h "a"
    simp [mapGet] at h2
  · apply sameDoc_of_mapGet_eq
    intro k
    by_cases ha : "a" = k
    · subst ha
      rfl
    · by_cases hb : "b" = k
      · subst hb
        rfl
      · simp [mapGet, ha, hb]

/-- The test "failing but optional rule" returns the document with the single
key `first_group`. -/
theorem optionalMapper_Execute :
    optionalMapper.Execute testInput = (some [("first_group", Any.string "app_group1")], none) :=
  rfl

/-! # The claims -/

/-- C1: if in in-order execution some required rule fails (its evaluation
returns an error or its write returns a path conflict), `Execute` returns an
error and no document; if no required rule fails, `Execute` returns a document
and no error. -/
theorem Execute_required_failure (m : Mapper) (input : Doc) :
    ((∃ i rule, m.CompiledMappingRules[i]? = some rule ∧ rule.Required = true ∧
        ruleFails [("self", Any.mapping input)] [] m.CompiledMappingRules i = true) →
      ∃ e, m.Execute input = (none, some e)) ∧
    ((¬∃ i rule, m.CompiledMappingRules[i]? = some rule ∧ rule.Required = true ∧
        ruleFails [("self", Any.mapping input)] [] m.CompiledMappingRules i = true) →
      ∃ doc, m.Execute input = (some doc, none)) := by
  constructor
  · intro h
    obtain ⟨i, rule, e, hi, hreq, he, hmin⟩ := exists_first_required_failure _ _ _ h
    exact ⟨e, executeLoop_first_failure _ _ _ i rule e hi hreq he hmin⟩
  · intro h
    refine ⟨_, executeLoop_no_failure _ _ _ ?_⟩
    intro j rj hj hreq
    cases hf : ruleFails [("self", Any.mapping input)] [] m.CompiledMappingRules j with
    | false => rfl
    | true => exact absurd ⟨j, rj, hj, hreq, hf⟩ h

/-- Witness for C1: in the test "failing but required rule" the first rule is
required and fails, and `Execute` returns an error and no document. -/
theorem Execute_required_failure_witness :
    ∃ e, requiredMapper.Execute testInput = (none, some e) :=
  (Execute_required_failure requiredMapper testInput).1 ⟨0, nameRule true, rfl, rfl, rfl⟩

/-- C2: the optional third rule `self.oidc.extra` fails to evaluate on the
input as the caller passed it, yet `Execute` evaluates it on the input as the
second rule left it, where it succeeds, and writes `y`; without the third rule
the returned document has no key `y`. -/
theorem Execute_optional_rule_on_changed_input :
    Shared.changedInputMapper.CompiledMappingRules[2]? = some Shared.extraRule ∧
    Shared.extraRule.Required = false ∧
    (match Shared.extraRule.Program Shared.startStore 3 with
      | Except.error e => some e
      | Except.ok _ => none) = some (Err.engine "no such key") ∧
    (Shared.changedInputMapper.Execute Shared.inputStore 0).2 = (some 2, none) ∧
    Shared.get (Shared.changedInputMapper.Execute Shared.inputStore 0).1 2 "y" =
      some (Shared.Val.string "x") ∧
    (Shared.Mapper.Execute
      (Shared.Mapper.mk (Shared.changedInputMapper.CompiledMappingRules.eraseIdx 2))
      Shared.inputStore 0).2 = (some 2, none) ∧
    Shared.get (Shared.Mapper.Execute
      (Shared.Mapper.mk (Shared.changedInputMapper.CompiledMappingRules.eraseIdx 2))
      Shared.inputStore 0).1 2 "y" = none := by
  refine ⟨rfl, rfl, ?_, ?_, ?_, ?_, ?_⟩ <;> decide

/-- C3: `Execute` is the left-to-right fold of the rules from the empty
document; when it returns an error, that error is the one of the required
failing rule of least index (the wrapped evaluation error, or the path conflict
of its write), and replacing the rules after that one changes nothing. -/
theorem Execute_in_declaration_order (m : Mapper) (input : Doc) :
    m.Execute input =
      foldResult (m.CompiledMappingRules.foldl (foldStep [("self", Any.mapping input)])
        ([], none)) ∧
    ∀ e, (m.Execute input).2 = some e →
      ∃ i rule, m.CompiledMappingRules[i]? = some rule ∧ rule.Required = true ∧
        ((∃ err, rule.Program [("self", Any.mapping input)] = Except.error err ∧
            e = Err.evalFailed rule.SourceExpression err) ∨
          (∃ out seg, rule.Program [("self", Any.mapping input)] = Except.ok out ∧
            (setNestedPath (docBefore [("self", Any.mapping input)] [] m.CompiledMappingRules i)
              rule.TargetPropPath (nativeValue out)).2 = some e ∧
            e = pathConflict seg)) ∧
        (∀ j rj, j < i → m.CompiledMappingRules[j]? = some rj → rj.Required = true →
          ruleFails [("self", Any.mapping input)] [] m.CompiledMappingRules j = false) ∧
        ∀ later, (Mapper.mk (m.CompiledMappingRules.take (i + 1) ++ later)).Execute input =
          (none, some e) := by
  refine ⟨executeLoop_eq_fold _ _ _, ?_⟩
  intro e he
  by_cases h : ∃ i rule, m.CompiledMappingRules[i]? = some rule ∧ rule.Required = true ∧
      ruleFails [("self", Any.mapping input)] [] m.CompiledMappingRules i = true
  · obtain ⟨i, rule, e2, hi, hreq, hout, hmin⟩ := exists_first_required_failure _ _ _ h
    have hex := executeLoop_first_failure _ _ _ i rule e2 hi hreq hout hmin
    have hee : e2 = e := by
      unfold Mapper.Execute at he
      rw [hex] at he
      simpa using he
    subst hee
    have hlt := lt_length_of_getElem? _ _ _ hi
    refine ⟨i, rule, hi, hreq, ?_, hmin, ?_⟩
    · unfold ruleOutcome at hout
      cases hp : rule.Program [("self", Any.mapping input)] with
      | error err =>
        left
        simp only [hp, Option.some.injEq] at hout
        exact ⟨err, rfl, hout.symm⟩
      | ok out =>
        right
        simp only [hp] at hout
        obtain ⟨k, seg, _, _, hseg⟩ := (setNestedParts_error_iff _ _ _ _).mp hout
        exact ⟨out, seg, rfl, hout, hseg⟩
    · intro later
      apply executeLoop_first_failure _ _ _ i rule e2
      · rw [getElem?_take_append _ _ i i hlt (Nat.le_refl i)]
        exact hi
      · exact hreq
      · rw [docBefore_take_append _ _ _ _ i i hlt (Nat.le_refl i)]
        exact hout
      · intro j rj hj hrj hreqj
        rw [ruleFails_take_append _ _ _ _ i j hlt (Nat.le_of_lt hj)]
        rw [getElem?_take_append _ _ i j hlt (Nat.le_of_lt hj)] at hrj
        exact hmin j rj hj hrj hreqj
  · have hno : ∀ j rj, m.CompiledMappingRules[j]? = some rj → rj.Required = true →
        ruleFails [("self", Any.mapping input)] [] m.CompiledMappingRules j = false := by
      intro j rj hj hreq
      cases hf : ruleFails [("self", Any.mapping input)] [] m.CompiledMappingRules j with
      | false => rfl
      | true => exact absurd ⟨j, rj, hj, hreq, hf⟩ h
    have hex := executeLoop_no_failure _ _ _ hno
    unfold Mapper.Execute at he
    rw [hex] at he
    cases he

/-- Witness for C3: in the test "failing but required rule" the error returned
is the wrapped evaluation error of the first rule. -/
theorem Execute_in_declaration_order_witness :
    ∃ i rule, requiredMapper.CompiledMappingRules[i]? = some rule ∧ rule.Required = true ∧
      ((∃ err, rule.Program [("self", Any.mapping testInput)] = Except.error err ∧
          Err.evalFailed "self.oidc.name" (Err.engine "no such key") =
            Err.evalFailed rule.SourceExpression err) ∨
        (∃ out seg, rule.Program [("self", Any.mapping testInput)] = Except.ok out ∧
          (setNestedPath
            (docBefore [("self", Any.mapping testInput)] [] requiredMapper.CompiledMappingRules i)
            rule.TargetPropPath (nativeValue out)).2 =
              some (Err.evalFailed "self.oidc.name" (Err.engine "no such key")) ∧
          Err.evalFailed "self.oidc.name" (Err.engine "no such key") = pathConflict seg)) ∧
      (∀ j rj, j < i → requiredMapper.CompiledMappingRules[j]? = some rj → rj.Required = true →
        ruleFails [("self", Any.mapping testInput)] [] requiredMapper.CompiledMappingRules j =
          false) ∧
      ∀ later,
        (Mapper.mk (requiredMapper.CompiledMappingRules.take (i + 1) ++ later)).Execute testInput =
          (none, some (Err.evalFailed "self.oidc.name" (Err.engine "no such key"))) :=
  (Execute_in_declaration_order requiredMapper testInput).2
    (Err.evalFailed "self.oidc.name" (Err.engine "no such key")) rfl

/-- C4: when `Execute` succeeds, the returned document is the one obtained
from the empty document by the writes, in declaration order, of exactly the
rules whose evaluation and write succeeded, all of which succeed again; every
rule that failed is optional and left the document as it found it. -/
theorem Execute_only_successful_writes (m : Mapper) (input : Doc) (doc : Doc)
    (h : m.Execute input = (some doc, none)) :
    applyWrites [] (successfulWrites [("self", Any.mapping input)] [] m.CompiledMappingRules) =
      some doc ∧
    doc = docAfter [("self", Any.mapping input)] [] m.CompiledMappingRules ∧
    ∀ i rule, m.CompiledMappingRules[i]? = some rule →
      ruleFails [("self", Any.mapping input)] [] m.CompiledMappingRules i = true →
      rule.Required = false ∧
      docBefore [("self", Any.mapping input)] [] m.CompiledMappingRules (i + 1) =
        docBefore [("self", Any.mapping input)] [] m.CompiledMappingRules i := by
  obtain ⟨hdoc, hno⟩ := executeLoop_success _ _ _ _ h
  refine ⟨executeLoop_applyWrites _ _ _ _ h, hdoc, ?_⟩
  intro i rule hi hf
  constructor
  · cases hreq : rule.Required with
    | false => rfl
    | true =>
      rw [hno i rule hi hreq] at hf
      cases hf
  · rw [docBefore_step _ _ _ i rule hi]
    apply ruleOutcome_atomic
    simpa [ruleFails, hi] using hf

/-- Witness for C4: the test "failing but optional rule" succeeds. -/
theorem Execute_only_successful_writes_witness :
    applyWrites []
        (successfulWrites [("self", Any.mapping testInput)] []
          optionalMapper.CompiledMappingRules) =
      some [("first_group", Any.string "app_group1")] ∧
    [("first_group", Any.string "app_group1")] =
      docAfter [("self", Any.mapping testInput)] [] optionalMapper.CompiledMappingRules ∧
    ∀ i rule, optionalMapper.CompiledMappingRules[i]? = some rule →
      ruleFails [("self", Any.mapping testInput)] [] optionalMapper.CompiledMappingRules i = true →
      rule.Required = false ∧
      docBefore [("self", Any.mapping testInput)] [] optionalMapper.CompiledMappingRules (i + 1) =
        docBefore [("self", Any.mapping testInput)] [] optionalMapper.CompiledMappingRules i :=
  Execute_only_successful_writes optionalMapper testInput
    [("first_group", Any.string "app_group1")] rfl

/-- C5: `setNestedPath` returns an error exactly when, walking the segments of
the path from the root, some non-final segment is present with a value that is
not a mapping, all earlier segments having led to mappings; the error is
"path conflict at" followed by the first such segment; whatever value the
whole path already leads to, the write does not fail. -/
theorem setNestedPath_error_iff_conflict (doc : Doc) (path : String) (value : Any) :
    (∀ e, (setNestedPath doc path value).2 = some e ↔
      ∃ k seg, (Split path)[k]? = some seg ∧ conflictAt doc (Split path) k = true ∧
        (∀ j, j < k → conflictAt doc (Split path) j = false) ∧
        e = Err.text ("path conflict at " ++ seg)) ∧
    (∀ x, (Any.mapping doc).getPath (Split path) = some x →
      (setNestedPath doc path value).2 = none) := by
  have key : ∀ e, (setNestedPath doc path value).2 = some e ↔
      ∃ k seg, (Split path)[k]? = some seg ∧ conflictAt doc (Split path) k = true ∧
        (∀ j, j < k → conflictAt doc (Split path) j = false) ∧
        e = Err.text ("path conflict at " ++ seg) := by
    intro e
    unfold setNestedPath
    rw [setNestedParts_error_iff]
    constructor
    · rintro ⟨k, seg, hseg, hc, he⟩
      refine ⟨k, seg, hseg, hc, ?_, he⟩
      intro j hj
      cases hcj : conflictAt doc (Split path) j with
      | false => rfl
      | true => exact absurd (conflictAt_unique _ _ _ _ hcj hc) (Nat.ne_of_lt hj)
    · rintro ⟨k, seg, hseg, hc, _, he⟩
      exact ⟨k, seg, hseg, hc, he⟩
  refine ⟨key, ?_⟩
  intro x hx
  cases herr : (setNestedPath doc path value).2 with
  | none => rfl
  | some e =>
    obtain ⟨k, seg, _, hc, _, _⟩ := (key e).mp herr
    rw [getPath_of_conflictAt _ _ _ hc] at hx
    cases hx

/-- Witness for C5: below an integer at `a`, the write at `a.b` fails with the
conflict at `a`. -/
theorem setNestedPath_error_iff_conflict_witness :
    (setNestedPath [("a", Any.int64 3)] "a.b" (Any.string "v")).2 =
      some (Err.text ("path conflict at " ++ "a")) :=
  ((setNestedPath_error_iff_conflict [("a", Any.int64 3)] "a.b" (Any.string "v")).1 _).mpr
    ⟨0, "a", rfl, rfl, fun j hj => absurd hj (Nat.not_lt_zero j), rfl⟩

/-- C6: after the rules `self.oidc` to `a` and `self.oidc` to `a.self`, the
rule `'v'` to `a.self.self` is written without error, and yet reading
`a.self.self` in the returned document finds nothing: `a.self` is the string,
not a mapping. -/
theorem Execute_write_not_read_back :
    (Shared.Mapper.Execute
      (Shared.Mapper.mk (Shared.cycleRules ++
        [Shared.constRule true "'v'" "a.self.self" (Shared.Val.string "v")]))
      Shared.inputStore 0).2 = (some 2, none) ∧
    Shared.select ["a", "self", "self"]
      (Shared.Mapper.Execute
        (Shared.Mapper.mk (Shared.cycleRules ++
          [Shared.constRule true "'v'" "a.self.self" (Shared.Val.string "v")]))
        Shared.inputStore 0).1 2 = none ∧
    Shared.select ["a", "self"]
      (Shared.Mapper.Execute
        (Shared.Mapper.mk (Shared.cycleRules ++
          [Shared.constRule true "'v'" "a.self.self" (Shared.Val.string "v")]))
        Shared.inputStore 0).1 2 = some (Shared.Val.string "v") ∧
    (Shared.setNestedPath (Shared.Mapper.Execute (Shared.Mapper.mk Shared.cycleRules)
        Shared.inputStore 0).1 2 "a.self.self" (Shared.Val.string "v")).2 = none ∧
    Shared.select (Split "a.self.self")
      (Shared.setNestedPath (Shared.Mapper.Execute (Shared.Mapper.mk Shared.cycleRules)
        Shared.inputStore 0).1 2 "a.self.self" (Shared.Val.string "v")).1 2 = none := by
  decide

/-- C7: when the path has at least two segments and its first segment `s1` is
absent from the document, `setNestedPath` succeeds and the document becomes the
old one with the one further key `s1`, bound to the chain of new mappings that
ends in the value; every other key reads as before; on the empty document the
result is the single binding of `s1` to that chain. -/
theorem setNestedPath_creates_chain (doc : Doc) (path : String) (v : Any) (s1 : String)
    (rest : List String) (hsplit : Split path = s1 :: rest) (hn : 2 ≤ (Split path).length)
    (habs : mapGet doc s1 = none) :
    setNestedPath doc path v = (doc ++ [(s1, chain rest v)], none) ∧
    (∀ k, mapGet (setNestedPath doc path v).1 k =
      if k = s1 then some (chain rest v) else mapGet doc k) ∧
    setNestedPath [] path v = ([(s1, chain rest v)], none) := by
  have hmain : setNestedPath doc path v = (doc ++ [(s1, chain rest v)], none) := by
    unfold setNestedPath
    rw [hsplit] at hn ⊢
    cases rest with
    | nil => simp at hn
    | cons p2 rest =>
      rw [setNestedParts_absent _ _ _ _ _ habs, setNestedParts_empty]
      simp only [chain]
      rw [mapSet_of_absent _ _ _ habs]
  refine ⟨hmain, ?_, ?_⟩
  · intro k
    rw [hmain]
    exact mapGet_append_absent doc s1 k _ habs
  · unfold setNestedPath
    rw [hsplit, setNestedParts_empty]

/-- Witness for C7: writing `a.b.c` into a document that has no key `a`. -/
theorem setNestedPath_creates_chain_witness :
    setNestedPath [("x", Any.int64 1)] "a.b.c" (Any.string "v") =
      ([("x", Any.int64 1)] ++ [("a", chain ["b", "c"] (Any.string "v"))], none) ∧
    (∀ k, mapGet (setNestedPath [("x", Any.int64 1)] "a.b.c" (Any.string "v")).1 k =
      if k = "a" then some (chain ["b", "c"] (Any.string "v"))
      else mapGet [("x", Any.int64 1)] k) ∧
    setNestedPath [] "a.b.c" (Any.string "v") =
      ([("a", chain ["b", "c"] (Any.string "v"))], none) :=
  setNestedPath_creates_chain [("x", Any.int64 1)] "a.b.c" (Any.string "v") "a" ["b", "c"]
    (by decide) (by decide) rfl

/-- C8: after the rules `self.oidc` to `a` and `self.oidc` to `a.self`, the
write of `'v'` at `a.self.self` succeeds and the following write of `'w'` at
the same path fails with the path conflict at `self`; `Execute` with these two
required rules returns that error and no document. -/
theorem Execute_second_write_conflicts :
    (Shared.setNestedPath (Shared.Mapper.Execute (Shared.Mapper.mk Shared.cycleRules)
        Shared.inputStore 0).1 2 "a.self.self" (Shared.Val.string "v")).2 = none ∧
    (Shared.setNestedPath
      (Shared.setNestedPath (Shared.Mapper.Execute (Shared.Mapper.mk Shared.cycleRules)
        Shared.inputStore 0).1 2 "a.self.self" (Shared.Val.string "v")).1
      2 "a.self.self" (Shared.Val.string "w")).2 = some (Err.text "path conflict at self") ∧
    (Shared.setNestedPath (Shared.Mapper.Execute (Shared.Mapper.mk Shared.cycleRules)
        Shared.inputStore 0).1 2 "a.self.self" (Shared.Val.string "w")).2 = none ∧
    (Shared.Mapper.Execute
      (Shared.Mapper.mk (Shared.cycleRules ++
        [Shared.constRule true "'v'" "a.self.self" (Shared.Val.string "v"),
         Shared.constRule true "'w'" "a.self.self" (Shared.Val.string "w")]))
      Shared.inputStore 0).2 = (none, some (Err.text "path conflict at self")) := by
  decide

/-- C9: when the segments of `p` are a strict initial part of the segments of
`q` and `setNestedPath` with `p` and a value that is not a mapping succeeds,
a following `setNestedPath` with `q` fails for every value with the path
conflict at the last segment of `p` and leaves the document as it is; in the loop
of `Execute` a required rule with target `q` then makes the call return that
error and no document, an optional one is passed over; so it is for two such
rules at the head of a mapper. -/
theorem setNestedPath_conflict_below_leaf (doc : Doc) (p q : String) (v : Any)
    (hpre : Split p <+: Split q) (hne : Split p ≠ Split q) (hv : v.isMapping = false)
    (h : (setNestedPath doc p v).2 = none) :
    (∀ w, setNestedPath (setNestedPath doc p v).1 q w =
      ((setNestedPath doc p v).1,
        some (Err.text ("path conflict at " ++ (Split p).getLast (Split_ne_nil p))))) ∧
    (∀ data rule rules out, rule.TargetPropPath = q → rule.Program data = Except.ok out →
      executeLoop data (rule :: rules) (setNestedPath doc p v).1 =
        if rule.Required = true then
          (none, some (Err.text ("path conflict at " ++ (Split p).getLast (Split_ne_nil p))))
        else executeLoop data rules (setNestedPath doc p v).1) ∧
    (∀ input r1 r2 rest o1 o2, r1.TargetPropPath = p → r2.TargetPropPath = q →
      r1.Program [("self", Any.mapping input)] = Except.ok o1 → nativeValue o1 = v →
      r2.Program [("self", Any.mapping input)] = Except.ok o2 →
      (Mapper.mk (r1 :: r2 :: rest)).Execute input =
        if r2.Required = true then
          (none, some (Err.text ("path conflict at " ++ (Split p).getLast (Split_ne_nil p))))
        else (Mapper.mk (r1 :: rest)).Execute input) := by
  have hgen : ∀ d : Doc, (setNestedPath d p v).2 = none →
      ∀ w, setNestedPath (setNestedPath d p v).1 q w =
        ((setNestedPath d p v).1, some (pathConflict ((Split p).getLast (Split_ne_nil p)))) :=
    fun d hd w => setNestedParts_strict_extension d (Split p) (Split q) v (Split_ne_nil p)
      hpre hne hv hd w
  have hloop : ∀ d : Doc, (setNestedPath d p v).2 = none →
      ∀ data rule rules out, rule.TargetPropPath = q → rule.Program data = Except.ok out →
      executeLoop data (rule :: rules) (setNestedPath d p v).1 =
        if rule.Required = true then
          (none, some (pathConflict ((Split p).getLast (Split_ne_nil p))))
        else executeLoop data rules (setNestedPath d p v).1 := by
    intro d hd data rule rules out ht hp
    apply executeLoop_write_conflict data rule rules _ out _ hp
    intro w
    rw [ht]
    exact hgen d hd w
  refine ⟨hgen doc h, hloop doc h, ?_⟩
  intro input r1 r2 rest o1 o2 ht1 ht2 hp1 hv1 hp2
  have hempty : (setNestedPath [] p v).2 = none := by
    unfold setNestedPath
    cases hs : Split p with
    | nil => exact absurd hs (Split_ne_nil p)
    | cons a l => rw [setNestedParts_empty]
  have ho1 : ruleOutcome [("self", Any.mapping input)] [] r1 = setNestedPath [] p v := by
    simp [ruleOutcome, hp1, ht1, hv1]
  unfold Mapper.Execute
  simp only
  rw [executeLoop_cons, executeLoop_cons _ r1 rest, ho1, hempty]
  simp only [Option.isSome_none, Bool.false_eq_true, and_false, if_false]
  exact hloop [] hempty _ r2 rest o2 ht2 hp2

/-- Witness for C9: a string written at `a`, then a write at `a.b`. -/
theorem setNestedPath_conflict_below_leaf_witness :
    (∀ w, setNestedPath (setNestedPath [] "a" (Any.string "s")).1 "a.b" w =
      ((setNestedPath [] "a" (Any.string "s")).1,
        some (Err.text ("path conflict at " ++ (Split "a").getLast (Split_ne_nil "a"))))) ∧
    (∀ data rule rules out, rule.TargetPropPath = "a.b" → rule.Program data = Except.ok out →
      executeLoop data (rule :: rules) (setNestedPath [] "a" (Any.string "s")).1 =
        if rule.Required = true then
          (none, some (Err.text ("path conflict at " ++ (Split "a").getLast (Split_ne_nil "a"))))
        else executeLoop data rules (setNestedPath [] "a" (Any.string "s")).1) ∧
    (∀ input r1 r2 rest o1 o2, r1.TargetPropPath = "a" → r2.TargetPropPath = "a.b" →
      r1.Program [("self", Any.mapping input)] = Except.ok o1 →
      nativeValue o1 = Any.string "s" →
      r2.Program [("self", Any.mapping input)] = Except.ok o2 →
      (Mapper.mk (r1 :: r2 :: rest)).Execute input =
        if r2.Required = true then
          (none, some (Err.text ("path conflict at " ++ (Split "a").getLast (Split_ne_nil "a"))))
        else (Mapper.mk (r1 :: rest)).Execute input) :=
  setNestedPath_conflict_below_leaf [] "a" "a.b" (Any.string "s") ⟨["b"], rfl⟩ (by decide) rfl rfl

/-- The conflict in `Execute`: a required rule below a string aborts the call
with the path conflict, an optional one is passed over. -/
theorem Execute_conflict_examples :
    (Mapper.mk [constRule false "'s'" "a" (Any.string "s"),
        constRule true "1" "a.b" (Any.int64 1)]).Execute [] =
      (none, some (Err.text "path conflict at a")) ∧
    (Mapper.mk [constRule false "'s'" "a" (Any.string "s"),
        constRule false "1" "a.b" (Any.int64 1),
        constRule true "2" "c" (Any.int64 2)]).Execute [] =
      (some [("a", Any.string "s"), ("c", Any.int64 2)], none) :=
  ⟨rfl, rfl⟩

/-- C10, as amended: the value `Execute` writes for a result is the result of
the first conversion, in the order `[]string`, `map[string]any`, `string`,
`int64`, `float64`, `bool`, `[]any`, that returns no error, unless that result
is nil; when it is nil or when no conversion succeeds, the value is
`out.Value()`; a mapper with this single rule returns that value at the target
path. -/
theorem nativeValue_first_non_nil_conversion (out : RefVal) :
    nativeTypes = [NativeType.stringSlice, NativeType.stringAnyMap, NativeType.string,
      NativeType.int64, NativeType.float64, NativeType.bool, NativeType.anySlice] ∧
    nativeValue out = firstNonNilConversionOrValue out ∧
    ∀ (rule : compiledMappingRule) (input : Doc),
      rule.Program [("self", Any.mapping input)] = Except.ok out →
      (Mapper.mk [rule]).Execute input =
        (some (setNestedPath [] rule.TargetPropPath (firstNonNilConversionOrValue out)).1,
          none) := by
  have hval : nativeValue out = firstNonNilConversionOrValue out := by
    unfold nativeValue firstNonNilConversionOrValue firstConversion
    rw [convertLoop_eq_findSome]
    cases List.findSome? _ nativeTypes with
    | none => simp [Any.isNil]
    | some v => rfl
  refine ⟨rfl, hval, ?_⟩
  intro rule input hp
  have hempty : ∀ v, (setNestedPath [] rule.TargetPropPath v).2 = none := by
    intro v
    unfold setNestedPath
    cases hs : Split rule.TargetPropPath with
    | nil => exact absurd hs (Split_ne_nil _)
    | cons a l => rw [setNestedParts_empty]
  unfold Mapper.Execute
  simp only
  rw [executeLoop_cons]
  have ho : ruleOutcome [("self", Any.mapping input)] [] rule =
      setNestedPath [] rule.TargetPropPath (firstNonNilConversionOrValue out) := by
    simp [ruleOutcome, hp, hval]
  rw [ho, hempty]
  simp [executeLoop]

/-- Counterexample to C10 as stated: for a result whose first conversion
returns nil without error, `Execute` writes `out.Value()` and not the result of
that conversion. -/
theorem nativeValue_not_first_conversion :
    firstConversion nilResult = some Any.nil ∧
    (Mapper.mk [nilRule]).Execute [] = (some [("out", Any.string "fallback")], none) ∧
    nativeValue nilResult ≠ firstConversionOrValue nilResult := by
  refine ⟨rfl, rfl, ?_⟩
  intro h
  have h2 : Any.string "fallback" = Any.nil := h
  cases h2

/-- C11: `NewMapper` returns an error and no mapper exactly when some rule
fails to compile or to become a program, the error being that of the first such
rule; otherwise it returns a mapper and no error, whose compiled rules embed
the given rules unchanged, in the same number and order; for the empty rule list
it returns a mapper without compiled rules. -/
theorem NewMapper_all_or_nothing {Ast : Type} (env : Env Ast) (rules : List MappingRule) :
    (∀ e, NewMapper env rules = (none, some e) ↔
      ∃ (i : Nat) (rule : MappingRule), rules[i]? = some rule ∧ compileError env rule = some e ∧
        ∀ (j : Nat) (rj : MappingRule), j < i → rules[j]? = some rj → compileError env rj = none) ∧
    ((∃ e, NewMapper env rules = (none, some e)) ↔
      ∃ rule, rule ∈ rules ∧ (compileError env rule).isSome = true) ∧
    ((¬∃ rule, rule ∈ rules ∧ (compileError env rule).isSome = true) →
      ∃ m, NewMapper env rules = (some m, none) ∧
        m.CompiledMappingRules.map compiledMappingRule.toMappingRule = rules ∧
        m.CompiledMappingRules.length = rules.length) ∧
    NewMapper env [] = (some (Mapper.mk []), none) := by
  have hok : (¬∃ rule, rule ∈ rules ∧ (compileError env rule).isSome = true) →
      ∃ m, NewMapper env rules = (some m, none) ∧
        m.CompiledMappingRules.map compiledMappingRule.toMappingRule = rules ∧
        m.CompiledMappingRules.length = rules.length := by
    intro hno
    have hall : ∀ rule, rule ∈ rules → compileError env rule = none := by
      intro rule hrule
      cases hc : compileError env rule with
      | none => rfl
      | some e => exact absurd ⟨rule, hrule, by simp [hc]⟩ hno
    obtain ⟨out, hout, hmap⟩ := compileLoop_ok env rules [] hall
    refine ⟨Mapper.mk out, ?_, hmap, ?_⟩
    · simp only [NewMapper, compileMappers, hout, List.nil_append]
    · rw [← hmap, List.length_map]
  have hfirst : ∀ e, (∃ (i : Nat) (rule : MappingRule), rules[i]? = some rule ∧ compileError env rule = some e ∧
        ∀ (j : Nat) (rj : MappingRule), j < i → rules[j]? = some rj → compileError env rj = none) →
      NewMapper env rules = (none, some e) := by
    rintro e ⟨i, rule, hi, he, hmin⟩
    simp only [NewMapper, compileMappers, compileLoop_error env rules [] i rule e hi he hmin]
  have hsome : (∃ rule, rule ∈ rules ∧ (compileError env rule).isSome = true) →
      ∃ (i : Nat) (rule : MappingRule) (e : Err), rules[i]? = some rule ∧ compileError env rule = some e ∧
        ∀ (j : Nat) (rj : MappingRule), j < i → rules[j]? = some rj → compileError env rj = none := by
    rintro ⟨rule, hmem, hc⟩
    obtain ⟨i, hi⟩ := List.getElem?_of_mem hmem
    exact exists_first_compile_error env rules ⟨i, rule, hi, hc⟩
  refine ⟨?_, ?_, hok, rfl⟩
  · intro e
    constructor
    · intro hres
      by_cases hex : ∃ rule, rule ∈ rules ∧ (compileError env rule).isSome = true
      · obtain ⟨i, rule, e2, hi, he2, hmin⟩ := hsome hex
        have h2 := hfirst e2 ⟨i, rule, hi, he2, hmin⟩
        rw [hres] at h2
        simp only [Prod.mk.injEq, Option.some.injEq, true_and] at h2
        subst h2
        exact ⟨i, rule, hi, he2, hmin⟩
      · obtain ⟨m, hm, _⟩ := hok hex
        rw [hres] at hm
        simp at hm
    · exact hfirst e
  · constructor
    · rintro ⟨e, hres⟩
      by_contra hex
      obtain ⟨m, hm, _⟩ := hok hex
      rw [hres] at hm
      simp at hm
    · intro hex
      obtain ⟨i, rule, e, hi, he, hmin⟩ := hsome hex
      exact ⟨e, hfirst e ⟨i, rule, hi, he, hmin⟩⟩

/-- Witness for C11: of two rules the second does not compile, and `NewMapper`
returns its error and no mapper. -/
theorem NewMapper_all_or_nothing_witness :
    NewMapper toyEnv
        [MappingRule.mk false "self.oidc" "oidc", MappingRule.mk true "oidc.name" "name"] =
      (none, some (Err.engine "undeclared reference in oidc.name")) :=
  ((NewMapper_all_or_nothing toyEnv
      [MappingRule.mk false "self.oidc" "oidc", MappingRule.mk true "oidc.name" "name"]).1
      (Err.engine "undeclared reference in oidc.name")).mpr
    ⟨1, MappingRule.mk true "oidc.name" "name", rfl, by decide,
      fun j rj hj hrj => by
        have hj0 : j = 0 := by omega
        subst hj0
        simp only [List.getElem?_cons_zero, Option.some.injEq] at hrj
        subst hrj
        decide⟩

/-- C12: in `conflictMapper` the required rule `self.oidc.groups` fails with a
path conflict, and the error that `Execute` returns is the bare error of
`setNestedPath`: it has no wrapped cause and its text does not contain the
expression, whereas the error of a failed evaluation wraps its cause and carries
the expression. -/
theorem Execute_conflict_error_unwrapped :
    conflictMapper.Execute testInput = (none, some (Err.text "path conflict at a")) ∧
    (Err.text "path conflict at a").Unwrap = none ∧
    ¬("self.oidc.groups".data <:+: "path conflict at a".data) ∧
    requiredMapper.Execute testInput =
      (none, some (Err.evalFailed "self.oidc.name" (Err.engine "no such key"))) ∧
    (Err.evalFailed "self.oidc.name" (Err.engine "no such key")).Unwrap =
      some (Err.engine "no such key") := by
  refine ⟨rfl, rfl, by decide, rfl, rfl⟩

/-- C13, as amended: when a rule fails to produce a value (its evaluation or
its write returns an error), `Execute` returns that error and no document if the
rule is required, and passes over the rule, continuing with the next rule on the
unchanged document, if it is optional. -/
theorem Execute_required_policy (data : Doc) (rule : compiledMappingRule)
    (rules : List compiledMappingRule) (doc : Doc) (e : Err)
    (h : (ruleOutcome data doc rule).2 = some e) :
    (rule.Required = true → executeLoop data (rule :: rules) doc = (none, some e)) ∧
    (rule.Required = false →
      executeLoop data (rule :: rules) doc = executeLoop data rules doc) := by
  rw [executeLoop_of_failure data rule rules doc e h]
  constructor
  · intro hr
    simp [hr]
  · intro hr
    simp [hr]

/-- Counterexample to C13 as stated: it is not so that every failing rule is
passed over when it is required and makes the execution fail when it is not;
in the tests the required failing rule makes `Execute` fail and the optional
failing rule is passed over. -/
theorem Execute_required_policy_not_inverted :
    ¬(∀ (data : Doc) (rule : compiledMappingRule) (rules : List compiledMappingRule) (doc : Doc)
        (e : Err), (ruleOutcome data doc rule).2 = some e →
        (rule.Required = true →
          executeLoop data (rule :: rules) doc = executeLoop data rules doc) ∧
        (rule.Required = false → executeLoop data (rule :: rules) doc = (none, some e))) ∧
    requiredMapper.Execute testInput =
      (none, some (Err.evalFailed "self.oidc.name" (Err.engine "no such key"))) ∧
    optionalMapper.Execute testInput =
      (some [("first_group", Any.string "app_group1")], none) := by
  refine ⟨?_, rfl, rfl⟩
  intro hall
  have h := (hall [("self", Any.mapping testInput)] (nameRule true) [firstGroupRule] []
    (Err.evalFailed "self.oidc.name" (Err.engine "no such key")) rfl).1 rfl
  have h2 : ((none : Option Doc), some (Err.evalFailed "self.oidc.name"
      (Err.engine "no such key"))) =
      (some [("first_group", Any.string "app_group1")], none) := h
  cases h2

/-- Witness for C13: the first rule of the test "failing but required rule". -/
theorem Execute_required_policy_witness :
    ((nameRule true).Required = true →
      executeLoop [("self", Any.mapping testInput)] (nameRule true :: [firstGroupRule]) [] =
        (none, some (Err.evalFailed "self.oidc.name" (Err.engine "no such key")))) ∧
    ((nameRule true).Required = false →
      executeLoop [("self", Any.mapping testInput)] (nameRule true :: [firstGroupRule]) [] =
        executeLoop [("self", Any.mapping testInput)] [firstGroupRule] []) :=
  Execute_required_policy [("self", Any.mapping testInput)] (nameRule true) [firstGroupRule] []
    (Err.evalFailed "self.oidc.name" (Err.engine "no such key")) rfl

/-- C14: with a first rule that writes the input's mapping `oidc` at `oidc`
and a second rule that writes at `oidc.extra`, `Execute` succeeds and has
assigned the key `extra` inside the caller's map object: the input is not what
it was before the call. -/
theorem Execute_modifies_input :
    (Shared.aliasMapper.Execute Shared.inputStore 0).2 = (some 2, none) ∧
    Shared.get (Shared.aliasMapper.Execute Shared.inputStore 0).1 2 "oidc" =
      some (Shared.Val.mapRef 1) ∧
    Shared.select ["oidc", "extra"] Shared.inputStore 0 = none ∧
    Shared.select ["oidc", "extra"] (Shared.aliasMapper.Execute Shared.inputStore 0).1 0 =
      some (Shared.Val.string "x") ∧
    (Shared.aliasMapper.Execute Shared.inputStore 0).1.getD 1 [] ≠
      Shared.inputStore.getD 1 [] := by
  decide

/-- With the first rule alone, `self.oidc` to `oidc`, the returned document
holds the caller's map object itself, and the input is still what it was; it is
the write beneath `oidc` that changes it. -/
theorem Execute_shares_input_map :
    Shared.get (Shared.Mapper.Execute
      (Shared.Mapper.mk (Shared.aliasMapper.CompiledMappingRules.take 1))
      Shared.inputStore 0).1 2 "oidc" = some (Shared.Val.mapRef 1) ∧
    (Shared.Mapper.Execute (Shared.Mapper.mk (Shared.aliasMapper.CompiledMappingRules.take 1))
      Shared.inputStore 0).1.take 2 = Shared.inputStore := by
  decide

/-- C15: when `setNestedPath` returns an error, the document is as it was
before the call; the error is the conflict at a segment up to which every
segment is present in the document, so that no mapping was created; and a write
into an empty mapping, such as a created one, never fails. -/
theorem setNestedPath_failure_atomic (doc : Doc) (path : String) (value : Any) (e : Err)
    (h : (setNestedPath doc path value).2 = some e) :
    (setNestedPath doc path value).1 = doc ∧
    (∃ k seg, (Split path)[k]? = some seg ∧ e = Err.text ("path conflict at " ++ seg) ∧
      ∀ j, j ≤ k → ((Any.mapping doc).getPath ((Split path).take (j + 1))).isSome = true) ∧
    ∀ p w, (setNestedPath [] p w).2 = none := by
  refine ⟨setNestedParts_atomic doc (Split path) value e h, ?_, setNestedPath_empty_ok⟩
  obtain ⟨k, seg, hseg, hc, he⟩ := (setNestedParts_error_iff _ _ _ _).mp h
  refine ⟨k, seg, hseg, he, ?_⟩
  intro j hj
  have hk := getPath_take_of_conflictAt doc (Split path) k hc
  obtain ⟨v, hv⟩ := Option.isSome_iff_exists.mp hk
  have hsplit : (Split path).take (k + 1) =
      (Split path).take (j + 1) ++ ((Split path).take (k + 1)).drop (j + 1) := by
    have := List.take_append_drop (j + 1) ((Split path).take (k + 1))
    rw [List.take_take, Nat.min_eq_left (by omega)] at this
    exact this.symm
  rw [hsplit] at hv
  exact getPath_isSome_of_append _ v _ _ hv

/-- Witness for C15: the write at `a.b.c` below the string at `a.b`. -/
theorem setNestedPath_failure_atomic_witness :
    (setNestedPath [("a", Any.mapping [("b", Any.string "s")])] "a.b.c" (Any.int64 1)).1 =
      [("a", Any.mapping [("b", Any.string "s")])] ∧
    (∃ k seg, (Split "a.b.c")[k]? = some seg ∧
      Err.text "path conflict at b" = Err.text ("path conflict at " ++ seg) ∧
      ∀ j, j ≤ k → ((Any.mapping [("a", Any.mapping [("b", Any.string "s")])]).getPath
        ((Split "a.b.c").take (j + 1))).isSome = true) ∧
    ∀ p w, (setNestedPath [] p w).2 = none :=
  setNestedPath_failure_atomic [("a", Any.mapping [("b", Any.string "s")])] "a.b.c"
    (Any.int64 1) (Err.text "path conflict at b") rfl

/-- C16: after the rules `self.oidc` to `a` and `self.oidc` to `b`, the
successful write of `'x'` at `a.extra` changes what the path `b.extra` reads,
from nothing to `'x'`, though neither of the two paths is an initial part of the
other. -/
theorem Execute_write_seen_off_path :
    ¬(Split "a.extra" <+: ["b", "extra"]) ∧ ¬(["b", "extra"] <+: Split "a.extra") ∧
    Shared.select ["b", "extra"]
      (Shared.Mapper.Execute (Shared.Mapper.mk Shared.twiceRules) Shared.inputStore 0).1 2 =
      none ∧
    (Shared.setNestedPath
      (Shared.Mapper.Execute (Shared.Mapper.mk Shared.twiceRules) Shared.inputStore 0).1
      2 "a.extra" (Shared.Val.string "x")).2 = none ∧
    Shared.select ["b", "extra"]
      (Shared.setNestedPath
        (Shared.Mapper.Execute (Shared.Mapper.mk Shared.twiceRules) Shared.inputStore 0).1
        2 "a.extra" (Shared.Val.string "x")).1 2 = some (Shared.Val.string "x") ∧
    (Shared.Mapper.Execute
      (Shared.Mapper.mk (Shared.twiceRules ++
        [Shared.constRule true "'x'" "a.extra" (Shared.Val.string "x")]))
      Shared.inputStore 0).2 = (some 2, none) ∧
    Shared.select ["b", "extra"]
      (Shared.Mapper.Execute
        (Shared.Mapper.mk (Shared.twiceRules ++
          [Shared.constRule true "'x'" "a.extra" (Shared.Val.string "x")]))
        Shared.inputStore 0).1 2 = some (Shared.Val.string "x") := by
  decide

/-- C17: after the rules `self.oidc` to `a` and `self.oidc` to `b`, the
writes of `1` at `a.x` and of `2` at `b.x` succeed in both orders, and leave
`a.x` as `2` in one order and as `1` in the other: the documents differ. -/
theorem Execute_divergent_writes_do_not_commute :
    ¬(Split "a.x" <+: Split "b.x") ∧ ¬(Split "b.x" <+: Split "a.x") ∧
    (Shared.Mapper.Execute
      (Shared.Mapper.mk (Shared.twiceRules ++
        [Shared.constRule true "1" "a.x" (Shared.Val.int64 1),
         Shared.constRule true "2" "b.x" (Shared.Val.int64 2)]))
      Shared.inputStore 0).2 = (some 2, none) ∧
    (Shared.Mapper.Execute
      (Shared.Mapper.mk (Shared.twiceRules ++
        [Shared.constRule true "2" "b.x" (Shared.Val.int64 2),
         Shared.constRule true "1" "a.x" (Shared.Val.int64 1)]))
      Shared.inputStore 0).2 = (some 2, none) ∧
    Shared.select ["a", "x"]
      (Shared.Mapper.Execute
        (Shared.Mapper.mk (Shared.twiceRules ++
          [Shared.constRule true "1" "a.x" (Shared.Val.int64 1),
           Shared.constRule true "2" "b.x" (Shared.Val.int64 2)]))
        Shared.inputStore 0).1 2 = some (Shared.Val.int64 2) ∧
    Shared.select ["a", "x"]
      (Shared.Mapper.Execute
        (Shared.Mapper.mk (Shared.twiceRules ++
          [Shared.constRule true "2" "b.x" (Shared.Val.int64 2),
           Shared.constRule true "1" "a.x" (Shared.Val.int64 1)]))
        Shared.inputStore 0).1 2 = some (Shared.Val.int64 1) := by
  decide

/-- C18: for a path without `'.'`, the empty path among them, the path is its
own single segment, `setNestedPath` does not fail and binds the key equal to
the whole path to the value, and every other key reads as before; no segment is
rejected: the empty segment of `""` and of `"a..b"` is the key `""`. -/
theorem setNestedPath_single_segment (doc : Doc) (path : String) (value : Any)
    (h : '.' ∉ path.data) :
    Split path = [path] ∧
    setNestedPath doc path value = (mapSet doc path value, none) ∧
    mapGet (setNestedPath doc path value).1 path = some value ∧
    (∀ k, k ≠ path → mapGet (setNestedPath doc path value).1 k = mapGet doc k) ∧
    setNestedPath doc "" value = (mapSet doc "" value, none) ∧
    Split "a..b" = ["a", "", "b"] ∧
    setNestedPath [] "a..b" value =
      ([("a", Any.mapping [("", Any.mapping [("b", value)])])], none) := by
  have hs := Split_of_no_dot path h
  have hw : setNestedPath doc path value = (mapSet doc path value, none) := by
    unfold setNestedPath
    rw [hs]
    rfl
  refine ⟨hs, hw, ?_, ?_, rfl, by decide, rfl⟩
  · rw [hw]
    exact mapGet_mapSet_same doc path value
  · intro k hk
    rw [hw]
    exact mapGet_mapSet_ne doc path k value (Ne.symm hk)

/-- Witness for C18: the path `name` written into a document with the key
`other`. -/
theorem setNestedPath_single_segment_witness :
    Split "name" = ["name"] ∧
    setNestedPath [("other", Any.int64 1)] "name" (Any.string "v") =
      (mapSet [("other", Any.int64 1)] "name" (Any.string "v"), none) ∧
    mapGet (setNestedPath [("other", Any.int64 1)] "name" (Any.string "v")).1 "name" =
      some (Any.string "v") ∧
    (∀ k, k ≠ "name" →
      mapGet (setNestedPath [("other", Any.int64 1)] "name" (Any.string "v")).1 k =
        mapGet [("other", Any.int64 1)] k) ∧
    setNestedPath [("other", Any.int64 1)] "" (Any.string "v") =
      (mapSet [("other", Any.int64 1)] "" (Any.string "v"), none) ∧
    Split "a..b" = ["a", "", "b"] ∧
    setNestedPath [] "a..b" (Any.string "v") =
      ([("a", Any.mapping [("", Any.mapping [("b", Any.string "v")])])], none) :=
  setNestedPath_single_segment [("other", Any.int64 1)] "name" (Any.string "v") (by decide)

/-- C19: the split of a path has at least one segment; the loop of
`setNestedPath` returns from inside its body, at the final segment exactly when
the write succeeds and at a conflict otherwise, after at least one iteration
and at most as many iterations as there are segments; it never reaches the
`return nil` after the loop. -/
theorem setNestedPath_returns_inside_loop (doc : Doc) (path : String) (value : Any) :
    1 ≤ (Split path).length ∧
    (setNestedExit doc (Split path)).1 ≠ Exit.afterLoop ∧
    1 ≤ (setNestedExit doc (Split path)).2 ∧
    (setNestedExit doc (Split path)).2 ≤ (Split path).length ∧
    ((setNestedExit doc (Split path)).1 = Exit.atFinalSegment ↔
      (setNestedPath doc path value).2 = none) ∧
    ((setNestedExit doc (Split path)).1 = Exit.atConflict ↔
      ∃ e, (setNestedPath doc path value).2 = some e) := by
  have hne := Split_ne_nil path
  obtain ⟨h1, h2, h3, h4, _⟩ := setNestedExit_spec doc (Split path) value hne
  refine ⟨List.length_pos.mpr hne, h1, h2, h3, h4, ?_⟩
  unfold setNestedPath
  constructor
  · intro hc
    cases he : (setNestedParts doc (Split path) value).2 with
    | some e => exact ⟨e, rfl⟩
    | none =>
      rw [h4.mpr he] at hc
      cases hc
  · rintro ⟨e, he⟩
    cases hx : (setNestedExit doc (Split path)).1 with
    | atConflict => rfl
    | afterLoop => exact absurd hx h1
    | atFinalSegment =>
      rw [h4.mp hx] at he
      cases he

end Dmapper
